import Mathlib

/-!
# Productive Planner Pro: task store, view filter and deadline notifier

A shallow embedding of `src/script.js`.  The module-level variables of the script
(`tasks`, `currentFilter`, `searchTerm`, `editTaskId`) become the fields of `State`;
every function of the script that touches them becomes a pure function `State → State`.

Conventions of the embedding:

* timestamps (ISO strings and `Date` objects in the script) are integers, in milliseconds;
  a `deadline` that is `null` is `none`;
* the value of a deadline box is a `DateInput`: empty, a string that `new Date` parses to a
  time value, or a string it does not parse, on which `toISOString` throws a `RangeError`;
* an exception that leaves an event handler is logged in `errors`, and the variables keep the
  values they had when it was thrown;
* clock readings (`Date.now()`, `new Date()`), random draws (`Math.random()`), the contents
  of the input boxes, the answer to `confirm` and `Notification.permission` are arguments;
* the effects on the outside world are logged in the state: `storage` lists the values
  passed to `localStorage.setItem`, `alerts` the messages passed to `alert`, and
  `notifications` the `Notification` objects that were constructed;
* the objects held in `tasks` are pairwise distinct objects, so mutating the object returned
  by `find` rewrites the first matching element of the list;
* `String.prototype.toLowerCase` is passed as a parameter `toLowerCase`.
-/

namespace PlannerPro

/-! ## Data model -/

/-- One to-do item, with the fields written by `createTask`. -/
structure Task where
  id : Int
  description : String
  completed : Bool
  deadline : Option Int
  source : String
  priority : String
  notified : Bool
  createdAt : Int
deriving DecidableEq, Repr

/-- The argument of `new Notification(title, { body, icon })`. -/
structure Notification where
  title : String
  body : String
  icon : String
deriving DecidableEq, Repr

/-- The values of `Notification.permission`. -/
inductive Permission where
  | granted
  | denied
  | default
deriving DecidableEq, Repr

/-- One record of the seed data source. -/
structure ApiTodo where
  id : Int
  title : String
  completed : Bool
deriving DecidableEq, Repr

/-- The readings one call of `createTask` takes from its environment: `Date.now()`,
`Math.floor(Math.random() * 1000)` and the `new Date()` stored in `createdAt`. -/
structure Readings where
  dateNow : Int
  random : Fin 1000
  createdAt : Int
deriving DecidableEq, Repr

/-- The value of a deadline box (`taskDeadlineInput.value`, `editTaskDeadline.value`) as the
script reads it: the empty string, a string that `new Date(value)` turns into the time value
`ms`, or a string that `new Date(value)` turns into an invalid date (for instance
`10000-01-01T00:00`, a year of five digits without sign). -/
inductive DateInput where
  | empty
  | date (ms : Int)
  | invalid
deriving DecidableEq, Repr

/-- The variables of the script together with the log of its effects; `errors` lists the
exceptions that left an event handler uncaught. -/
structure State where
  tasks : List Task
  currentFilter : String
  searchTerm : String
  editTaskId : Option Int
  storage : List (List Task)
  alerts : List String
  notifications : List Notification
  errors : List String
deriving DecidableEq, Repr

/-- The state before `init` has run. -/
def State.initial : State :=
  { tasks := [], currentFilter := "all", searchTerm := "", editTaskId := none,
    storage := [], alerts := [], notifications := [], errors := [] }

/-! ## String helpers -/

/-- The characters removed by `String.prototype.trim`: ECMAScript white space and line
terminators. -/
def isJsWhitespace (c : Char) : Bool :=
  let n := c.toNat
  n == 0x9 || n == 0xA || n == 0xB || n == 0xC || n == 0xD || n == 0x20 || n == 0xA0 ||
  n == 0x1680 || (0x2000 ≤ n && n ≤ 0x200A) || n == 0x2028 || n == 0x2029 || n == 0x202F ||
  n == 0x205F || n == 0x3000 || n == 0xFEFF

/-- Embeds `String.prototype.trim`. -/
def trim (s : String) : String :=
  String.mk ((s.data.dropWhile isJsWhitespace).reverse.dropWhile isJsWhitespace).reverse

/-- Embeds `s.includes(t)`: `t` occurs in `s` as a contiguous substring. -/
def includes (s t : String) : Bool :=
  decide (t.data <:+: s.data)

/-! ## Task store -/

/-- Embeds `value ? new Date(value).toISOString() : null` (an empty string and `null` are
both falsy): `toISOString` throws a `RangeError` on an invalid date. -/
def toISOString (value : DateInput) : Except String (Option Int) :=
  match value with
  | .empty => .ok none
  | .date ms => .ok (some ms)
  | .invalid => .error "RangeError: Invalid time value"

/-- Embeds `createTask(description, deadline, source, priority)`; it throws when the deadline
does not parse. -/
def createTask (description : String) (deadline : DateInput) (source priority : String)
    (r : Readings) : Except String Task :=
  match toISOString deadline with
  | .error e => .error e
  | .ok iso =>
    .ok
      { id := r.dateNow + (r.random.val : Int)
        description := description
        completed := false
        deadline := iso
        source := source
        priority := priority
        notified := false
        createdAt := r.createdAt }

/-- Embeds `saveTasksToStorage()`: one more `localStorage.setItem` with the current list. -/
def saveTasksToStorage (s : State) : State :=
  { s with storage := s.storage ++ [s.tasks] }

/-- Mutation of the object returned by `tasks.find(p)`: the first element satisfying `p` is
rewritten by `f`, the others stay. -/
def updateFirst (p : Task → Bool) (f : Task → Task) : List Task → List Task
  | [] => []
  | t :: ts => if p t then f t :: ts else t :: updateFirst p f ts

/-- Embeds `fetchTasksFromAPI()`: `response` is the parsed answer of the seed source (`none` when the
fetch or the parse throws), `created i` the clock reading stored in the `i`-th mapped task,
`r1 … r5` the readings of the five `createTask` calls of the fallback.  Those five calls pass
`null` as deadline, so none of them throws and the last branch is never taken. -/
def fetchTasksFromAPI (response : Option (List ApiTodo)) (created : Nat → Int)
    (r1 r2 r3 r4 r5 : Readings) (s : State) : State :=
  match response with
  | some apiTasks =>
    let limitedTasks := apiTasks.take 15
    saveTasksToStorage
      { s with tasks := limitedTasks.enum.map (fun (i, task) =>
          { id := task.id
            description := task.title
            completed := task.completed
            deadline := none
            source := "api"
            priority := "medium"
            notified := false
            createdAt := created i }) }
  | none =>
    match createTask "Welcome to Productive Planner Pro!" .empty "system" "medium" r1,
      createTask "Try adding your own tasks" .empty "system" "medium" r2,
      createTask "Set deadlines for important tasks" .empty "system" "medium" r3,
      createTask "Use filters to organize your tasks" .empty "system" "medium" r4,
      createTask "Enable notifications for reminders" .empty "system" "medium" r5 with
    | .ok t1, .ok t2, .ok t3, .ok t4, .ok t5 =>
      saveTasksToStorage { s with tasks := [t1, t2, t3, t4, t5] }
    | _, _, _, _, _ => { s with errors := s.errors ++ ["RangeError: Invalid time value"] }

/-- Embeds `addTask()`: `inputValue` is `newTaskInput.value`, `deadline` is
`taskDeadlineInput.value`.  When `createTask` throws, the handler is left before
`tasks.push`: nothing is appended and nothing is written. -/
def addTask (inputValue : String) (deadline : DateInput) (r : Readings) (s : State) : State :=
  let description := trim inputValue
  if description = "" then
    { s with alerts := s.alerts ++ ["Please enter a task description"] }
  else
    match createTask description deadline "user" "medium" r with
    | .error e => { s with errors := s.errors ++ [e] }
    | .ok newTask => saveTasksToStorage { s with tasks := s.tasks ++ [newTask] }

/-- Embeds `toggleTaskCompletion(taskId)`. -/
def toggleTaskCompletion (taskId : Int) (s : State) : State :=
  match s.tasks.find? (fun t => t.id == taskId) with
  | some _ =>
    saveTasksToStorage
      { s with tasks := (updateFirst (fun t => t.id == taskId)
          (fun task =>
            let completed := !task.completed
            { task with completed := completed,
                        notified := if !completed then false else task.notified })
          s.tasks) }
  | none => s

/-- Embeds `deleteTask(taskId)`: `confirmed` is the answer to the `confirm` dialog. -/
def deleteTask (taskId : Int) (confirmed : Bool) (s : State) : State :=
  if confirmed then
    saveTasksToStorage { s with tasks := s.tasks.filter (fun t => t.id != taskId) }
  else s

/-- Embeds `editTask(taskId)`: opens the edit session when the task exists. -/
def editTask (taskId : Int) (s : State) : State :=
  match s.tasks.find? (fun t => t.id == taskId) with
  | some _ => { s with editTaskId := some taskId }
  | none => s

/-- Embeds `saveEditedTask()`: `descriptionValue`, `deadline` and `priorityValue` are the contents of
the three boxes of the edit dialog.  `!editTaskId` holds for `null` and for the id `0`.  The
description is assigned first; when `toISOString` then throws, the handler is left with the
new description in place and the deadline, the priority, the storage and `editTaskId` as
they were. -/
def saveEditedTask (descriptionValue : String) (deadline : DateInput) (priorityValue : String)
    (s : State) : State :=
  match s.editTaskId with
  | none => s
  | some editId =>
    if editId = 0 then s
    else
      match s.tasks.find? (fun t => t.id == editId) with
      | some _ =>
        match toISOString deadline with
        | .error e =>
          { s with tasks := (updateFirst (fun t => t.id == editId)
                (fun task => { task with description := trim descriptionValue })
                s.tasks),
                   errors := s.errors ++ [e] }
        | .ok iso =>
          { saveTasksToStorage
              { s with tasks := (updateFirst (fun t => t.id == editId)
                  (fun task =>
                    { task with description := trim descriptionValue,
                                deadline := iso,
                                priority := priorityValue })
                  s.tasks) } with editTaskId := none }
      | none => s

/-! ## View filter -/

/-- Embeds `getFilteredTasks()`: `now` is the reading of `new Date()` used by the overdue test. -/
def getFilteredTasks (toLowerCase : String → String) (now : Int) (s : State) : List Task :=
  let filtered :=
    if s.searchTerm ≠ "" then
      s.tasks.filter (fun task => includes (toLowerCase task.description) s.searchTerm)
    else s.tasks
  if s.currentFilter = "active" then
    filtered.filter (fun task => !task.completed)
  else if s.currentFilter = "completed" then
    filtered.filter (fun task => task.completed)
  else if s.currentFilter = "overdue" then
    filtered.filter (fun task =>
      if task.completed then false
      else
        match task.deadline with
        | none => false
        | some d => decide (d < now))
  else filtered

/-- Embeds `toggleSelectAll()`.  The elements of `visibleTasks` are the very objects of `tasks` that
pass the filter, and the filter only reads the fields of a task, so an object of `tasks` is
mutated exactly when its value occurs in `visibleTasks`. -/
def toggleSelectAll (toLowerCase : String → String) (now : Int) (s : State) : State :=
  let visibleTasks := getFilteredTasks toLowerCase now s
  let allCompleted := visibleTasks.all (fun task => task.completed)
  saveTasksToStorage
    { s with tasks := s.tasks.map (fun task =>
        if task ∈ visibleTasks then
          let completed := !allCompleted
          { task with completed := completed,
                      notified := if !completed then false else task.notified }
        else task) }

/-! ## Deadline notifier -/

/-- The reminder built for a task in `checkDeadlines`. -/
def reminder (task : Task) : Notification :=
  { title := "Task Reminder!"
    body := "Your task \"" ++ task.description ++ "\" is due soon!"
    icon := "https://cdn-icons-png.flaticon.com/512/3208/3208720.png" }

/-- The test `minutesDiff > 0 && minutesDiff <= 15` of `checkDeadlines`, where
`minutesDiff = (deadline - now) / (1000 * 60)`.  The quotient is taken over the rationals: on
integer millisecond differences the rounded quotient of the script compares with `0` and `15`
as the exact one does (`900000 / 60000` is exactly `15` and rounding is monotone). -/
def inWindow (deadline now : Int) : Bool :=
  let timeDiff : Int := deadline - now
  let minutesDiff : ℚ := (timeDiff : ℚ) / (1000 * 60)
  decide (minutesDiff > 0) && decide (minutesDiff ≤ 15)

/-- The decision taken for one task by the callback of the `forEach` of `checkDeadlines`:
`false` on the early `return` (completed, no deadline or already notified), otherwise the
window test on the deadline. -/
def shouldNotify (now : Int) (task : Task) : Bool :=
  if task.completed || task.deadline.isNone || task.notified then false
  else
    match task.deadline with
    | none => false
    | some deadline => inWindow deadline now

/-- The `forEach` of `checkDeadlines`: `done` are the tasks already visited, the third
argument the tasks still to visit.  Returns the task list, the reminders fired and the values
written to storage, in order; each write stores the list as it is at that moment. -/
def checkLoop (now : Int) :
    List Task → List Task → List Notification → List (List Task) →
      List Task × List Notification × List (List Task)
  | done, [], fired, writes => (done, fired, writes)
  | done, task :: rest, fired, writes =>
    if shouldNotify now task then
      let task1 := { task with notified := true }
      checkLoop now (done ++ [task1]) rest (fired ++ [reminder task])
        (writes ++ [done ++ task1 :: rest])
    else
      checkLoop now (done ++ [task]) rest fired writes

/-- Embeds `checkDeadlines()`: `permission` is `Notification.permission`, `now` the `new Date()`. -/
def checkDeadlines (permission : Permission) (now : Int) (s : State) : State :=
  if permission ≠ Permission.granted then s
  else
    let r := checkLoop now [] s.tasks [] []
    { s with tasks := r.1,
             notifications := s.notifications ++ r.2.1,
             storage := s.storage ++ r.2.2 }

/-! ## Rendering -/

/-- The parts of the element built by `createTaskElement` that depend on the state of the task
and on the time: the two style classes and the text of the deadline label (empty when no label
is shown). -/
structure TaskElement where
  completed : Bool
  overdue : Bool
  deadlineDisplay : String
deriving DecidableEq, Repr

/-- Embeds `createTaskElement(task)`, up to the markup.  `now1` is the `new Date()` read by the
overdue test, `now2` the one read for `diffHours`; `toLocaleDateString` and
`toLocaleTimeString` are the two formatting methods of `Date`.  `Math.floor` of the quotient
is the floor of the exact quotient: for differences below `2^53` the rounded quotient of the
script and the exact one have the same floor. -/
def createTaskElement (toLocaleDateString toLocaleTimeString : Int → String) (now1 now2 : Int)
    (task : Task) : TaskElement :=
  let isOverdue : Bool :=
    !task.completed &&
      match task.deadline with
      | none => false
      | some deadline => decide (deadline < now1)
  let deadlineDisplay : String :=
    match task.deadline with
    | none => ""
    | some deadlineDate =>
      let diffHours : Int := ⌊((deadlineDate - now2 : Int) : ℚ) / (1000 * 60 * 60)⌋
      if isOverdue then
        "Overdue: " ++ toLocaleDateString deadlineDate ++ " " ++ toLocaleTimeString deadlineDate
      else if diffHours < 24 then
        "Due today: " ++ toLocaleTimeString deadlineDate
      else if diffHours < 48 then
        "Due tomorrow: " ++ toLocaleTimeString deadlineDate
      else
        "Due: " ++ toLocaleDateString deadlineDate ++ " " ++ toLocaleTimeString deadlineDate
  { completed := task.completed, overdue := isOverdue, deadlineDisplay := deadlineDisplay }

/-! ## Runs of the application -/

/-- The events that change the variables of the script: the two view settings wired in
`setupEventListeners`, the store operations and the notifier tick. -/
inductive Step where
  | setFilter (filter : String)
  | setSearch (value : String)
  | addTask (inputValue : String) (deadline : DateInput) (r : Readings)
  | toggleTaskCompletion (taskId : Int)
  | deleteTask (taskId : Int) (confirmed : Bool)
  | editTask (taskId : Int)
  | saveEditedTask (descriptionValue : String) (deadline : DateInput) (priorityValue : String)
  | toggleSelectAll (now : Int)
  | checkDeadlines (permission : Permission) (now : Int)
deriving DecidableEq, Repr

/-- One event applied to a state. -/
def step (toLowerCase : String → String) (s : State) : Step → State
  | .setFilter filter => { s with currentFilter := filter }
  | .setSearch value => { s with searchTerm := toLowerCase value }
  | .addTask inputValue deadline r => addTask inputValue deadline r s
  | .toggleTaskCompletion taskId => toggleTaskCompletion taskId s
  | .deleteTask taskId confirmed => deleteTask taskId confirmed s
  | .editTask taskId => editTask taskId s
  | .saveEditedTask descriptionValue deadline priorityValue =>
    saveEditedTask descriptionValue deadline priorityValue s
  | .toggleSelectAll now => toggleSelectAll toLowerCase now s
  | .checkDeadlines permission now => checkDeadlines permission now s

/-- A sequence of events applied from left to right. -/
def run (toLowerCase : String → String) (s : State) (steps : List Step) : State :=
  steps.foldl (step toLowerCase) s

/-! ## Predicates used to state the properties -/

/-- A task a reminder is due for at time `now`: not completed, not yet notified, with a
deadline more than 0 and at most 15 minutes (900000 ms) after `now`. -/
def dueSoon (now : Int) (t : Task) : Bool :=
  !t.completed && !t.notified &&
    match t.deadline with
    | none => false
    | some d => decide (0 < d - now) && decide (d - now ≤ 15 * 60 * 1000)

/-- The whole hours from `now` to `deadline`: the floor of the difference in milliseconds
divided by 3600000. -/
def hoursUntil (deadline now : Int) : Int :=
  Int.fdiv (deadline - now) 3600000

/-- The search test of the view filter: an empty search term keeps every task, otherwise the
lower-cased description has to contain the term. -/
def matchesSearch (toLowerCase : String → String) (term : String) (t : Task) : Bool :=
  decide (term = "") || includes (toLowerCase t.description) term

/-- A task is overdue at `now`: not completed, with a deadline strictly before `now`. -/
def isOverdue (now : Int) (t : Task) : Bool :=
  !t.completed &&
    match t.deadline with
    | none => false
    | some d => decide (d < now)

/-- The test a task has to pass to be visible under filter mode `mode` and search term `term`
at time `now`. -/
def isVisible (toLowerCase : String → String) (now : Int) (mode term : String) (t : Task) :
    Bool :=
  matchesSearch toLowerCase term t &&
    (if mode = "active" then !t.completed
     else if mode = "completed" then t.completed
     else if mode = "overdue" then isOverdue now t
     else true)

/-- The property of two successive `toggleSelectAll` calls (at times `now1` and `now2`) on a
state: when the visible subset is non-empty and not entirely completed, every task of that
subset is completed after the first call, and incomplete with `notified` cleared after the
second. Tasks are followed by their position in the list. -/
def SelectAllTwice (toLowerCase : String → String) (now1 now2 : Int) (s : State) : Prop :=
  getFilteredTasks toLowerCase now1 s ≠ [] →
  ¬ (∀ v ∈ getFilteredTasks toLowerCase now1 s, v.completed = true) →
  ∀ (i : Nat) (t : Task), s.tasks[i]? = some t → t ∈ getFilteredTasks toLowerCase now1 s →
    (∃ t1, (toggleSelectAll toLowerCase now1 s).tasks[i]? = some t1 ∧ t1.completed = true) ∧
    (∃ t2, (toggleSelectAll toLowerCase now2 (toggleSelectAll toLowerCase now1 s)).tasks[i]?
        = some t2 ∧ t2.completed = false ∧ t2.notified = false)

/-- The property C8 states of one call of `addTask`: a description that is empty after
trimming leaves the task list and the storage as they are, and a description that is not
appends exactly one task with the trimmed description, not completed, not notified, of source
`user` and priority `medium`. -/
def AddTaskClaim (inputValue : String) (deadline : DateInput) (r : Readings) (s : State) :
    Prop :=
  (trim inputValue = "" →
    (addTask inputValue deadline r s).tasks = s.tasks ∧
    (addTask inputValue deadline r s).storage = s.storage) ∧
  (trim inputValue ≠ "" →
    ∃ t : Task, (addTask inputValue deadline r s).tasks = s.tasks ++ [t] ∧
      t.description = trim inputValue ∧ t.completed = false ∧ t.notified = false ∧
      t.source = "user" ∧ t.priority = "medium")

/-! ## Following a task through a run

The objects of `tasks` keep their identity while the list is mutated; ids need not be distinct,
so a task is followed by its position: every operation keeps the positions, except `deleteTask`,
which removes the tasks of the given id and shifts the later ones. -/

/-- The position after step `st` of the task at position `i` before it; `none` when the step
deletes that task or `i` is not a position of the list. -/
def trackStep (st : Step) (s : State) (i : Nat) : Option Nat :=
  match st with
  | .deleteTask taskId true =>
    match s.tasks[i]? with
    | some t =>
      if t.id = taskId then none
      else some ((s.tasks.take i).filter (fun t => t.id != taskId)).length
    | none => none
  | _ => if i < s.tasks.length then some i else none

/-- The position, after all of `steps`, of the task at position `i` before them. -/
def trackRun (toLowerCase : String → String) : State → List Step → Nat → Option Nat
  | s, [], i => if i < s.tasks.length then some i else none
  | s, st :: rest, i =>
    match trackStep st s i with
    | none => none
    | some j => trackRun toLowerCase (step toLowerCase s st) rest j

/-- The two operations that toggle completion. -/
def Step.isToggle : Step → Bool
  | .toggleTaskCompletion _ => true
  | .toggleSelectAll _ => true
  | _ => false

/-- Step `st` took the task from `t` to `t1` by flipping it from completed to incomplete. -/
def reopened (st : Step) (t t1 : Task) : Bool :=
  st.isToggle && t.completed && !t1.completed

/-- Along `steps`, the task starting at position `i` is never flipped from completed to
incomplete by `toggleTaskCompletion` or `toggleSelectAll` (for as long as it is in the list). -/
def NoReopen (toLowerCase : String → String) : State → List Step → Nat → Prop
  | _, [], _ => True
  | s, st :: rest, i =>
    match trackStep st s i with
    | none => True
    | some j =>
      (∀ t t1, s.tasks[i]? = some t → (step toLowerCase s st).tasks[j]? = some t1 →
        reopened st t t1 = false) ∧
      NoReopen toLowerCase (step toLowerCase s st) rest j

/-- What one step may do to a task it keeps, taking it from `t` to `t1`: the id stays; a set
`notified` flag stays set unless the step reopened the task; the flag is set afresh only by a
`checkDeadlines` tick with permission granted for which the task was due. -/
def TaskRel (st : Step) (t t1 : Task) : Prop :=
  t1.id = t.id ∧
  (t.notified = true → t1.notified = true ∨ reopened st t t1 = true) ∧
  (t1.notified = true → t.notified = true ∨
    ∃ now, st = Step.checkDeadlines Permission.granted now ∧ dueSoon now t = true)

/-- The task at position `j` after `steps` was seen due by an earlier notifier tick: `steps`
contains a `checkDeadlines` step, run with permission granted at some time `now`, before which
the same task was not completed and had a deadline more than 0 and at most 15 minutes after
`now`. -/
def ObservedDue (toLowerCase : String → String) (s0 : State) (steps : List Step) (j : Nat) :
    Prop :=
  ∃ (pre post : List Step) (now : Int) (i : Nat) (t : Task) (d : Int),
    steps = pre ++ Step.checkDeadlines Permission.granted now :: post ∧
    (run toLowerCase s0 pre).tasks[i]? = some t ∧
    t.completed = false ∧ t.deadline = some d ∧ 0 < d - now ∧ d - now ≤ 15 * 60 * 1000 ∧
    trackRun toLowerCase (run toLowerCase s0 pre)
      (Step.checkDeadlines Permission.granted now :: post) i = some j

/-- A reminder was already fired for the current state of the task at position `j` after
`steps`: some `checkDeadlines` step of `steps`, run with permission granted, fired a reminder
for that task; the task has not been flipped from completed to incomplete since; and the
deadline it had at that step is the deadline it has now. -/
def RemindedForCurrent (toLowerCase : String → String) (s0 : State) (steps : List Step)
    (j : Nat) : Prop :=
  ∃ (pre post : List Step) (now : Int) (i : Nat) (t t2 : Task) (d : Int),
    steps = pre ++ Step.checkDeadlines Permission.granted now :: post ∧
    (run toLowerCase s0 pre).tasks[i]? = some t ∧ shouldNotify now t = true ∧
    trackRun toLowerCase (run toLowerCase s0 pre)
      (Step.checkDeadlines Permission.granted now :: post) i = some j ∧
    NoReopen toLowerCase
      (run toLowerCase s0 (pre ++ [Step.checkDeadlines Permission.granted now])) post i ∧
    t.deadline = some d ∧
    (run toLowerCase s0 steps).tasks[j]? = some t2 ∧ t2.deadline = some d

/-- A reminder was already fired for the task at position `j` after `steps`, since it last
became incomplete: some `checkDeadlines` step of `steps`, run with permission granted, fired a
reminder for that task, and the task has not been flipped from completed to incomplete
since.  Nothing is said of the deadline the task had at that step. -/
def RemindedSinceReopen (toLowerCase : String → String) (s0 : State) (steps : List Step)
    (j : Nat) : Prop :=
  ∃ (pre post : List Step) (now : Int) (i : Nat) (t : Task),
    steps = pre ++ Step.checkDeadlines Permission.granted now :: post ∧
    (run toLowerCase s0 pre).tasks[i]? = some t ∧ shouldNotify now t = true ∧
    trackRun toLowerCase (run toLowerCase s0 pre)
      (Step.checkDeadlines Permission.granted now :: post) i = some j ∧
    NoReopen toLowerCase
      (run toLowerCase s0 (pre ++ [Step.checkDeadlines Permission.granted now])) post i

/-- The states the application can be in: the seed loaded by `fetchTasksFromAPI` into the
initial state, followed by any sequence of events. -/
inductive Reachable (toLowerCase : String → String) : State → Prop where
  | seed (response : Option (List ApiTodo)) (created : Nat → Int) (r1 r2 r3 r4 r5 : Readings) :
      Reachable toLowerCase (fetchTasksFromAPI response created r1 r2 r3 r4 r5 State.initial)
  | next (s : State) (st : Step) :
      Reachable toLowerCase s → Reachable toLowerCase (step toLowerCase s st)

/-- The ids of the tasks of a state are pairwise distinct. -/
def UniqueIds (s : State) : Prop :=
  (s.tasks.map (fun t => t.id)).Nodup

/-! ## Sample data -/

/-- A sample task: completed, with a deadline. -/
def taskA : Task :=
  { id := 1, description := "Write report", completed := true, deadline := some 1000,
    source := "user", priority := "medium", notified := true, createdAt := 0 }

/-- A sample task: not completed, with the same deadline. -/
def taskB : Task :=
  { id := 2, description := "Book flight", completed := false, deadline := some 1000,
    source := "user", priority := "medium", notified := true, createdAt := 0 }

/-- A sample task: not completed, without a deadline. -/
def taskC : Task :=
  { id := 3, description := "Call bank", completed := false, deadline := none,
    source := "user", priority := "medium", notified := false, createdAt := 0 }

/-- A sample task: open, not notified, due at 601000. -/
def taskD : Task :=
  { id := 7, description := "Pay rent", completed := false, deadline := some 601000,
    source := "user", priority := "medium", notified := false, createdAt := 0 }

/-- A state holding the due sample task alone. -/
def dueView : State :=
  { State.initial with tasks := [taskD] }

/-- A state holding the notified open sample task alone. -/
def singleView : State :=
  { State.initial with tasks := [taskB] }

/-- A state holding the three sample tasks with no filter and no search term: a visible
subset of three tasks, two of them completed. -/
def allView : State :=
  { State.initial with tasks := [taskA, { taskB with completed := true }, taskC] }

/-- A state holding one open task under the active filter. -/
def activeView : State :=
  { State.initial with tasks := [taskC], currentFilter := "active" }

/-- A state holding the three sample tasks under the overdue filter. -/
def overdueView : State :=
  { State.initial with tasks := [taskA, taskB, taskC], currentFilter := "overdue" }

/-- The fallback seed loaded when the fetch fails at clock reading 1000, the five random draws
being 0, 1, 2, 3 and 4: the ids are 1000, 1001, 1002, 1003 and 1004. -/
def fallbackSeed : State :=
  fetchTasksFromAPI none (fun _ => 1000) ⟨1000, 0, 1000⟩ ⟨1000, 1, 1000⟩ ⟨1000, 2, 1000⟩
    ⟨1000, 3, 1000⟩ ⟨1000, 4, 1000⟩ State.initial

/-- The readings of an `addTask` one millisecond after the fallback seed, with random draw 0. -/
def laterReadings : Readings := ⟨1001, 0, 1001⟩

/-- The fallback seed followed by that `addTask`. -/
def collidingState : State :=
  step id fallbackSeed (Step.addTask "Buy milk" DateInput.empty laterReadings)

/-- The task added by the first step of `staleRun`: due at 601000, with id 2000. -/
def rentTask : Task :=
  { id := 2000, description := "Pay rent", completed := false, deadline := some 601000,
    source := "user", priority := "medium", notified := false, createdAt := 2000 }

/-- A run from the fallback seed: a task due at 601000 is added at clock reading 2000; the tick
at time 3000 fires its reminder; the task is then edited, its deadline moving to 1201000. -/
def staleRun : List Step :=
  [Step.addTask "Pay rent" (DateInput.date 601000) ⟨2000, 0, 2000⟩,
   Step.checkDeadlines Permission.granted 3000,
   Step.editTask 2000,
   Step.saveEditedTask "Pay rent" (DateInput.date 1201000) "high"]

/-! ## Lemmas -/

theorem createTask_empty (description source priority : String) (r : Readings) :
    createTask description DateInput.empty source priority r =
      Except.ok { id := r.dateNow + (r.random.val : Int), description := description,
                  completed := false, deadline := none, source := source,
                  priority := priority, notified := false, createdAt := r.createdAt } := rfl

theorem createTask_date (description source priority : String) (ms : Int) (r : Readings) :
    createTask description (DateInput.date ms) source priority r =
      Except.ok { id := r.dateNow + (r.random.val : Int), description := description,
                  completed := false, deadline := some ms, source := source,
                  priority := priority, notified := false, createdAt := r.createdAt } := rfl

theorem createTask_invalid (description source priority : String) (r : Readings) :
    createTask description DateInput.invalid source priority r =
      Except.error "RangeError: Invalid time value" := rfl

/-- The fields of a task that `createTask` returns. -/
theorem createTask_ok (description : String) (deadline : DateInput) (source priority : String)
    (r : Readings) (t : Task)
    (h : createTask description deadline source priority r = Except.ok t) :
    t.id = r.dateNow + (r.random.val : Int) ∧ t.description = description ∧
      t.completed = false ∧ t.notified = false ∧ t.source = source ∧
      t.priority = priority ∧ t.createdAt = r.createdAt ∧
      toISOString deadline = Except.ok t.deadline := by
  cases deadline with
  | empty =>
    rw [createTask_empty] at h
    injection h with h
    subst h
    exact ⟨rfl, rfl, rfl, rfl, rfl, rfl, rfl, rfl⟩
  | date ms =>
    rw [createTask_date] at h
    injection h with h
    subst h
    exact ⟨rfl, rfl, rfl, rfl, rfl, rfl, rfl, rfl⟩
  | invalid =>
    rw [createTask_invalid] at h
    exact absurd h (by simp)

theorem fetchTasksFromAPI_fallback (created : Nat → Int) (r1 r2 r3 r4 r5 : Readings)
    (s : State) :
    fetchTasksFromAPI none created r1 r2 r3 r4 r5 s =
      saveTasksToStorage
        { s with tasks :=
          [ { id := r1.dateNow + (r1.random.val : Int),
              description := "Welcome to Productive Planner Pro!", completed := false,
              deadline := none, source := "system", priority := "medium", notified := false,
              createdAt := r1.createdAt },
            { id := r2.dateNow + (r2.random.val : Int),
              description := "Try adding your own tasks", completed := false,
              deadline := none, source := "system", priority := "medium", notified := false,
              createdAt := r2.createdAt },
            { id := r3.dateNow + (r3.random.val : Int),
              description := "Set deadlines for important tasks", completed := false,
              deadline := none, source := "system", priority := "medium", notified := false,
              createdAt := r3.createdAt },
            { id := r4.dateNow + (r4.random.val : Int),
              description := "Use filters to organize your tasks", completed := false,
              deadline := none, source := "system", priority := "medium", notified := false,
              createdAt := r4.createdAt },
            { id := r5.dateNow + (r5.random.val : Int),
              description := "Enable notifications for reminders", completed := false,
              deadline := none, source := "system", priority := "medium", notified := false,
              createdAt := r5.createdAt } ] } := rfl

/-- The three ways `addTask` ends: blank description, `createTask` throws, or one task is
appended and the list written. -/
theorem addTask_cases (inputValue : String) (deadline : DateInput) (r : Readings) (s : State) :
    (trim inputValue = "" ∧
      addTask inputValue deadline r s =
        { s with alerts := s.alerts ++ ["Please enter a task description"] }) ∨
    (trim inputValue ≠ "" ∧ ∃ e,
      createTask (trim inputValue) deadline "user" "medium" r = Except.error e ∧
      addTask inputValue deadline r s = { s with errors := s.errors ++ [e] }) ∨
    (trim inputValue ≠ "" ∧ ∃ t,
      createTask (trim inputValue) deadline "user" "medium" r = Except.ok t ∧
      addTask inputValue deadline r s =
        saveTasksToStorage { s with tasks := s.tasks ++ [t] }) := by
  unfold addTask
  by_cases he : trim inputValue = ""
  · left
    exact ⟨he, by simp [he]⟩
  · right
    cases hc : createTask (trim inputValue) deadline "user" "medium" r with
    | error e =>
      left
      exact ⟨he, e, rfl, by simp [he, hc]⟩
    | ok t =>
      right
      exact ⟨he, t, rfl, by simp [he, hc]⟩

theorem inWindow_iff (deadline now : Int) :
    inWindow deadline now = true ↔ 0 < deadline - now ∧ deadline - now ≤ 15 * 60 * 1000 := by
  unfold inWindow
  simp only [Bool.and_eq_true, decide_eq_true_eq, gt_iff_lt]
  have h60 : (0 : ℚ) < 1000 * 60 := by norm_num
  rw [lt_div_iff₀ h60, div_le_iff₀ h60]
  constructor
  · rintro ⟨h1, h2⟩
    push_cast at h1 h2
    constructor
    · have : (0 : ℚ) < ((deadline - now : Int) : ℚ) := by push_cast; linarith
      exact_mod_cast this
    · have : ((deadline - now : Int) : ℚ) ≤ ((15 * 60 * 1000 : Int) : ℚ) := by
        push_cast; linarith
      exact_mod_cast this
  · rintro ⟨h1, h2⟩
    have h1q : ((0 : Int) : ℚ) < ((deadline - now : Int) : ℚ) := by exact_mod_cast h1
    have h2q : ((deadline - now : Int) : ℚ) ≤ ((15 * 60 * 1000 : Int) : ℚ) := by
      exact_mod_cast h2
    push_cast at h1q h2q ⊢
    constructor <;> linarith

/-- The decision of the loop of `checkDeadlines` is the predicate `dueSoon`. -/
theorem shouldNotify_eq_dueSoon (now : Int) (t : Task) :
    shouldNotify now t = dueSoon now t := by
  unfold shouldNotify dueSoon
  cases hd : t.deadline with
  | none => simp
  | some d =>
    have h := inWindow_iff d now
    cases hc : t.completed <;> cases hn : t.notified <;> simp
    rw [Bool.eq_iff_iff, h]
    simp

theorem checkLoop_eq (now : Int) (todo : List Task) :
    ∀ (done : List Task) (fired : List Notification) (writes : List (List Task)),
      (checkLoop now done todo fired writes).1 =
          done ++ todo.map (fun t => if dueSoon now t then { t with notified := true } else t) ∧
      (checkLoop now done todo fired writes).2.1 =
          fired ++ (todo.filter (dueSoon now)).map reminder := by
  induction todo with
  | nil => intro done fired writes; simp [checkLoop]
  | cons t rest ih =>
    intro done fired writes
    have hds := shouldNotify_eq_dueSoon now t
    unfold checkLoop
    cases hs : shouldNotify now t
    · rw [hs] at hds
      obtain ⟨h1, h2⟩ := ih (done ++ [t]) fired writes
      simp only [Bool.false_eq_true, if_false]
      rw [h1, h2]
      simp [← hds]
    · rw [hs] at hds
      obtain ⟨h1, h2⟩ :=
        ih (done ++ [{ t with notified := true }]) (fired ++ [reminder t])
          (writes ++ [done ++ { t with notified := true } :: rest])
      simp only [if_true]
      rw [h1, h2]
      simp [← hds]

theorem updateFirst_append_cons (p : Task → Bool) (f : Task → Task) (pre : List Task)
    (t : Task) (post : List Task) (hpre : ∀ x ∈ pre, p x = false) (ht : p t = true) :
    updateFirst p f (pre ++ t :: post) = pre ++ f t :: post := by
  induction pre with
  | nil => simp [updateFirst, ht]
  | cons x xs ih =>
    have hx : p x = false := hpre x (List.mem_cons_self _ _)
    have hxs : ∀ y ∈ xs, p y = false := fun y hy => hpre y (List.mem_cons_of_mem _ hy)
    simp [updateFirst, hx, ih hxs]

theorem find?_append_cons (p : Task → Bool) (pre : List Task) (t : Task) (post : List Task)
    (hpre : ∀ x ∈ pre, p x = false) (ht : p t = true) :
    (pre ++ t :: post).find? p = some t := by
  induction pre with
  | nil => simp [List.find?, ht]
  | cons x xs ih =>
    have hx : p x = false := hpre x (List.mem_cons_self _ _)
    have hxs : ∀ y ∈ xs, p y = false := fun y hy => hpre y (List.mem_cons_of_mem _ hy)
    simp [List.find?, hx, ih hxs]

theorem exists_first_split (p : Task → Bool) (l : List Task) (h : ∃ x ∈ l, p x = true) :
    ∃ pre t post, l = pre ++ t :: post ∧ (∀ x ∈ pre, p x = false) ∧ p t = true := by
  induction l with
  | nil => simp at h
  | cons x xs ih =>
    cases hx : p x
    · have h2 : ∃ y ∈ xs, p y = true := by
        obtain ⟨y, hy, hpy⟩ := h
        rcases List.mem_cons.mp hy with rfl | hy
        · rw [hx] at hpy; exact absurd hpy (by simp)
        · exact ⟨y, hy, hpy⟩
      obtain ⟨pre, t, post, hl, hpre, ht⟩ := ih h2
      refine ⟨x :: pre, t, post, by simp [hl], ?_, ht⟩
      intro y hy
      rcases List.mem_cons.mp hy with rfl | hy
      · exact hx
      · exact hpre y hy
    · exact ⟨[], x, xs, rfl, by simp, hx⟩

theorem find?_none_of_forall (p : Task → Bool) (l : List Task) (h : ∀ x ∈ l, p x = false) :
    l.find? p = none := by
  rw [List.find?_eq_none]
  intro x hx
  simp [h x hx]

theorem toggleTaskCompletion_tasks_of_split (taskId : Int) (s : State) (pre post : List Task)
    (t : Task) (hsplit : s.tasks = pre ++ t :: post) (hpre : ∀ x ∈ pre, x.id ≠ taskId)
    (ht : t.id = taskId) :
    (toggleTaskCompletion taskId s).tasks =
      pre ++ { t with completed := !t.completed,
                      notified := if t.completed then false else t.notified } :: post := by
  have hp : ∀ x ∈ pre, (fun t : Task => t.id == taskId) x = false := by
    intro x hx; simpa using hpre x hx
  have hf := find?_append_cons (fun t => t.id == taskId) pre t post hp (by simp [ht])
  unfold toggleTaskCompletion
  rw [hsplit, hf]
  simp only [saveTasksToStorage]
  rw [updateFirst_append_cons _ _ pre t post hp (by simp [ht])]
  cases t.completed <;> simp

theorem getFilteredTasks_eq_filter (toLowerCase : String → String) (now : Int) (s : State) :
    getFilteredTasks toLowerCase now s =
      s.tasks.filter (isVisible toLowerCase now s.currentFilter s.searchTerm) := by
  have hvis : isVisible toLowerCase now s.currentFilter s.searchTerm =
      fun t => matchesSearch toLowerCase s.searchTerm t &&
        (if s.currentFilter = "active" then !t.completed
         else if s.currentFilter = "completed" then t.completed
         else if s.currentFilter = "overdue" then isOverdue now t
         else true) := by
    funext t; rfl
  rw [hvis]
  have hsearch : (if s.searchTerm ≠ "" then
        s.tasks.filter (fun task => includes (toLowerCase task.description) s.searchTerm)
      else s.tasks) = s.tasks.filter (matchesSearch toLowerCase s.searchTerm) := by
    by_cases h : s.searchTerm = ""
    · have hm : matchesSearch toLowerCase "" = fun _ => true := by
        funext t; simp [matchesSearch]
      simp [h, hm]
    · have hm : matchesSearch toLowerCase s.searchTerm =
          fun task => includes (toLowerCase task.description) s.searchTerm := by
        funext t; simp [matchesSearch, h]
      simp [h, hm]
  have hover : ∀ t : Task, (if t.completed then false
      else match t.deadline with
        | none => false
        | some d => decide (d < now)) = isOverdue now t := by
    intro t
    unfold isOverdue
    cases t.completed <;> simp
  unfold getFilteredTasks
  simp only [hsearch, hover]
  by_cases h1 : s.currentFilter = "active"
  · simp [h1, List.filter_filter, Bool.and_comm]
  · by_cases h2 : s.currentFilter = "completed"
    · simp [h2, List.filter_filter, Bool.and_comm]
    · by_cases h3 : s.currentFilter = "overdue"
      · simp [h3, List.filter_filter, Bool.and_comm]
      · simp [h1, h2, h3]

theorem mem_getFilteredTasks (toLowerCase : String → String) (now : Int) (s : State)
    (t : Task) :
    t ∈ getFilteredTasks toLowerCase now s ↔
      t ∈ s.tasks ∧ isVisible toLowerCase now s.currentFilter s.searchTerm t = true := by
  rw [getFilteredTasks_eq_filter, List.mem_filter]

theorem toggleSelectAll_tasks (toLowerCase : String → String) (now : Int) (s : State) :
    (toggleSelectAll toLowerCase now s).tasks =
      s.tasks.map (fun t =>
        if t ∈ getFilteredTasks toLowerCase now s then
          (if (getFilteredTasks toLowerCase now s).all (fun v => v.completed) then
            { t with completed := false, notified := false }
           else { t with completed := true })
        else t) := by
  unfold toggleSelectAll saveTasksToStorage
  simp only
  apply List.map_congr_left
  intro t _
  by_cases hv : t ∈ getFilteredTasks toLowerCase now s
  · cases hall : (getFilteredTasks toLowerCase now s).all (fun v => v.completed) <;>
      simp [hv]
  · simp [hv]

theorem isVisible_of_stable_mode (toLowerCase : String → String) (now : Int)
    (mode term : String) (t : Task) (h1 : mode ≠ "active") (h2 : mode ≠ "overdue") :
    isVisible toLowerCase now mode term t =
      (matchesSearch toLowerCase term t &&
        (if mode = "completed" then t.completed else true)) := by
  unfold isVisible
  simp [h1, h2]

theorem filter_getElem?_forward (p : Task → Bool) (l : List Task) :
    ∀ (i : Nat) (t : Task), l[i]? = some t → p t = true →
      (l.filter p)[((l.take i).filter p).length]? = some t := by
  induction l with
  | nil => intro i t h; simp at h
  | cons x xs ih =>
    intro i t h hp
    cases i with
    | zero =>
      simp at h
      subst h
      simp [List.filter, hp]
    | succ k =>
      simp at h
      have := ih k t h hp
      cases hx : p x
      · simpa [List.filter, hx] using this
      · simpa [List.filter, hx] using this

theorem filter_getElem?_backward (p : Task → Bool) (l : List Task) :
    ∀ (j : Nat) (t : Task), (l.filter p)[j]? = some t →
      ∃ i, l[i]? = some t ∧ p t = true ∧ ((l.take i).filter p).length = j := by
  induction l with
  | nil => intro j t h; simp at h
  | cons x xs ih =>
    intro j t h
    cases hx : p x
    · rw [List.filter_cons_of_neg (by simp [hx])] at h
      obtain ⟨i, hi, hp, hlen⟩ := ih j t h
      exact ⟨i + 1, by simpa using hi, hp, by simpa [List.filter, hx] using hlen⟩
    · rw [List.filter_cons_of_pos hx] at h
      cases j with
      | zero =>
        simp at h
        subst h
        exact ⟨0, by simp, hx, by simp⟩
      | succ k =>
        simp at h
        obtain ⟨i, hi, hp, hlen⟩ := ih k t h
        exact ⟨i + 1, by simpa using hi, hp, by simpa [List.filter, hx] using hlen⟩

theorem updateFirst_length (p : Task → Bool) (f : Task → Task) (l : List Task) :
    (updateFirst p f l).length = l.length := by
  induction l with
  | nil => rfl
  | cons x xs ih =>
    unfold updateFirst
    cases hx : p x <;> simp [ih]

theorem updateFirst_getElem? (p : Task → Bool) (f : Task → Task) (l : List Task) :
    ∀ (i : Nat) (t : Task), l[i]? = some t →
      (updateFirst p f l)[i]? = some t ∨ (updateFirst p f l)[i]? = some (f t) := by
  induction l with
  | nil => intro i t h; simp at h
  | cons x xs ih =>
    intro i t h
    unfold updateFirst
    cases hx : p x
    · cases i with
      | zero => left; simpa using h
      | succ k =>
        simp at h
        simpa using ih k t h
    · cases i with
      | zero =>
        simp at h
        subst h
        right; simp
      | succ k => left; simpa using h

theorem TaskRel.same (st : Step) (t : Task) : TaskRel st t t :=
  ⟨rfl, fun h => Or.inl h, fun h => Or.inl h⟩

theorem checkDeadlines_tasks (now : Int) (s : State) :
    (checkDeadlines Permission.granted now s).tasks =
      s.tasks.map (fun t => if dueSoon now t then { t with notified := true } else t) := by
  obtain ⟨h1, _⟩ := checkLoop_eq now s.tasks [] [] []
  simp only [checkDeadlines, ne_eq, not_true_eq_false, if_false]
  rw [h1]
  simp

/-- Every step other than a confirmed `deleteTask` keeps each task at its position and changes
it within `TaskRel`. -/
theorem step_pointwise (toLowerCase : String → String) (s : State) (st : Step)
    (hnd : ∀ taskId, st ≠ Step.deleteTask taskId true) (i : Nat) (t : Task)
    (h : s.tasks[i]? = some t) :
    ∃ t1, (step toLowerCase s st).tasks[i]? = some t1 ∧ TaskRel st t t1 := by
  cases st with
  | setFilter filter => exact ⟨t, h, TaskRel.same _ t⟩
  | setSearch value => exact ⟨t, h, TaskRel.same _ t⟩
  | addTask inputValue deadline r =>
    refine ⟨t, ?_, TaskRel.same _ t⟩
    simp only [step]
    rcases addTask_cases inputValue deadline r s with ⟨_, hs⟩ | ⟨_, e, _, hs⟩ | ⟨_, u, _, hs⟩
    · rw [hs]; exact h
    · rw [hs]; exact h
    · have hlt : i < s.tasks.length := (List.getElem?_eq_some_iff.mp h).1
      rw [hs]
      simp only [saveTasksToStorage]
      rw [List.getElem?_append_left hlt]
      exact h
  | toggleTaskCompletion taskId =>
    simp only [step, toggleTaskCompletion]
    cases hf : s.tasks.find? (fun t => t.id == taskId) with
    | none => exact ⟨t, h, TaskRel.same _ t⟩
    | some u =>
      simp only [saveTasksToStorage]
      rcases updateFirst_getElem? (fun t => t.id == taskId)
        (fun task =>
            let completed := !task.completed
            { task with completed := completed,
                        notified := if !completed then false else task.notified })
        s.tasks i t h with h1 | h1
      · exact ⟨t, h1, TaskRel.same _ t⟩
      · refine ⟨_, h1, rfl, ?_, ?_⟩
        · intro hn
          cases hc : t.completed <;> simp [hn, hc, reopened, Step.isToggle]
        · intro hn
          left
          cases hc : t.completed <;> simp [hc] at hn ⊢
          exact hn
  | deleteTask taskId confirmed =>
    cases confirmed with
    | true => exact absurd rfl (hnd taskId)
    | false => exact ⟨t, by simpa [step, deleteTask] using h, TaskRel.same _ t⟩
  | editTask taskId =>
    refine ⟨t, ?_, TaskRel.same _ t⟩
    simp only [step, editTask]
    cases hf : s.tasks.find? (fun t => t.id == taskId) <;> simpa using h
  | saveEditedTask descriptionValue deadline priorityValue =>
    simp only [step, saveEditedTask]
    cases he : s.editTaskId with
    | none => exact ⟨t, h, TaskRel.same _ t⟩
    | some editId =>
      by_cases h0 : editId = 0
      · simp only [h0, if_true]
        exact ⟨t, h, TaskRel.same _ t⟩
      · simp only [h0, if_false]
        cases hf : s.tasks.find? (fun t => t.id == editId) with
        | none => exact ⟨t, h, TaskRel.same _ t⟩
        | some u =>
          cases hiso : toISOString deadline with
          | error e =>
            simp only
            rcases updateFirst_getElem? (fun t => t.id == editId)
              (fun task => { task with description := trim descriptionValue })
              s.tasks i t h with h1 | h1
            · exact ⟨t, h1, TaskRel.same _ t⟩
            · exact ⟨_, h1, rfl, fun hn => Or.inl hn, fun hn => Or.inl hn⟩
          | ok iso =>
            simp only [saveTasksToStorage]
            rcases updateFirst_getElem? (fun t => t.id == editId)
              (fun task =>
                { task with description := trim descriptionValue,
                            deadline := iso,
                            priority := priorityValue })
              s.tasks i t h with h1 | h1
            · exact ⟨t, h1, TaskRel.same _ t⟩
            · exact ⟨_, h1, rfl, fun hn => Or.inl hn, fun hn => Or.inl hn⟩
  | toggleSelectAll now =>
    simp only [step]
    rw [toggleSelectAll_tasks, List.getElem?_map, h]
    by_cases hv : t ∈ getFilteredTasks toLowerCase now s
    · cases hall : (getFilteredTasks toLowerCase now s).all (fun v => v.completed)
      · refine ⟨{ t with completed := true }, by simp [hv], rfl,
          fun hn => Or.inl hn, fun hn => Or.inl hn⟩
      · refine ⟨{ t with completed := false, notified := false }, by simp [hv], rfl, ?_, ?_⟩
        · intro hn
          right
          have hc : t.completed = true := by
            rw [List.all_eq_true] at hall
            exact hall t hv
          simp [reopened, Step.isToggle, hc]
        · intro hn
          simp at hn
    · exact ⟨t, by simp [hv], TaskRel.same _ t⟩
  | checkDeadlines permission now =>
    simp only [step]
    cases permission with
    | granted =>
      rw [checkDeadlines_tasks, List.getElem?_map, h]
      cases hd : dueSoon now t
      · exact ⟨t, by simp [hd], TaskRel.same _ t⟩
      · exact ⟨{ t with notified := true }, by simp [hd], rfl, fun _ => Or.inl rfl,
          fun _ => Or.inr ⟨now, rfl, hd⟩⟩
    | denied => exact ⟨t, by simpa [checkDeadlines] using h, TaskRel.same _ t⟩
    | default => exact ⟨t, by simpa [checkDeadlines] using h, TaskRel.same _ t⟩

theorem step_length (toLowerCase : String → String) (s : State) (st : Step)
    (hnd : ∀ taskId, st ≠ Step.deleteTask taskId true)
    (hna : ∀ inputValue deadline r, st ≠ Step.addTask inputValue deadline r) :
    (step toLowerCase s st).tasks.length = s.tasks.length := by
  cases st with
  | setFilter filter => rfl
  | setSearch value => rfl
  | addTask inputValue deadline r => exact absurd rfl (hna inputValue deadline r)
  | toggleTaskCompletion taskId =>
    simp only [step, toggleTaskCompletion]
    cases hf : s.tasks.find? (fun t => t.id == taskId) <;>
      simp [saveTasksToStorage, updateFirst_length]
  | deleteTask taskId confirmed =>
    cases confirmed with
    | true => exact absurd rfl (hnd taskId)
    | false => simp [step, deleteTask]
  | editTask taskId =>
    simp only [step, editTask]
    cases hf : s.tasks.find? (fun t => t.id == taskId) <;> simp
  | saveEditedTask descriptionValue deadline priorityValue =>
    simp only [step, saveEditedTask]
    cases he : s.editTaskId with
    | none => rfl
    | some editId =>
      by_cases h0 : editId = 0
      · simp [h0]
      · simp only [h0, if_false]
        cases hf : s.tasks.find? (fun t => t.id == editId) with
        | none => rfl
        | some u =>
          cases hiso : toISOString deadline <;>
            simp [saveTasksToStorage, updateFirst_length]
  | toggleSelectAll now =>
    simp only [step]
    rw [toggleSelectAll_tasks]
    simp
  | checkDeadlines permission now =>
    simp only [step]
    cases permission with
    | granted => rw [checkDeadlines_tasks]; simp
    | denied => simp [checkDeadlines]
    | default => simp [checkDeadlines]

theorem trackStep_of_not_delete (s : State) (st : Step)
    (hnd : ∀ taskId, st ≠ Step.deleteTask taskId true) (i : Nat) :
    trackStep st s i = if i < s.tasks.length then some i else none := by
  cases st with
  | deleteTask taskId confirmed =>
    cases confirmed with
    | true => exact absurd rfl (hnd taskId)
    | false => rfl
  | _ => rfl

/-- A task followed through one step is related to its earlier self by `TaskRel`. -/
theorem trackStep_spec (toLowerCase : String → String) (s : State) (st : Step) (i j : Nat)
    (h : trackStep st s i = some j) :
    ∃ t t1, s.tasks[i]? = some t ∧ (step toLowerCase s st).tasks[j]? = some t1 ∧
      TaskRel st t t1 := by
  by_cases hd : ∃ taskId, st = Step.deleteTask taskId true
  · obtain ⟨taskId, rfl⟩ := hd
    simp only [trackStep] at h
    cases ht : s.tasks[i]? with
    | none => simp [ht] at h
    | some t =>
      simp only [ht] at h
      by_cases hid : t.id = taskId
      · simp [hid] at h
      · simp only [hid, if_false, Option.some.injEq] at h
        refine ⟨t, t, rfl, ?_, TaskRel.same _ t⟩
        subst h
        simp only [step, deleteTask, if_true, saveTasksToStorage]
        exact filter_getElem?_forward (fun t => t.id != taskId) s.tasks i t ht (by simp [hid])
  · have hnd : ∀ taskId, st ≠ Step.deleteTask taskId true := fun taskId he => hd ⟨taskId, he⟩
    rw [trackStep_of_not_delete s st hnd] at h
    by_cases hlt : i < s.tasks.length
    · simp only [hlt, if_true, Option.some.injEq] at h
      subst h
      have ht : s.tasks[i]? = some s.tasks[i] := List.getElem?_eq_getElem hlt
      obtain ⟨t1, h1, hrel⟩ := step_pointwise toLowerCase s st hnd i _ ht
      exact ⟨_, t1, ht, h1, hrel⟩
    · simp [hlt] at h

/-- Every task present after a step either is followed from a position before the step, or was
just appended by `addTask` (and is then not notified). -/
theorem step_origin (toLowerCase : String → String) (s : State) (st : Step) (j : Nat)
    (t1 : Task) (h : (step toLowerCase s st).tasks[j]? = some t1) :
    (∃ i, trackStep st s i = some j) ∨
      ((∃ inputValue deadline r, st = Step.addTask inputValue deadline r) ∧
        t1.notified = false) := by
  by_cases hd : ∃ taskId, st = Step.deleteTask taskId true
  · obtain ⟨taskId, rfl⟩ := hd
    left
    simp only [step, deleteTask, if_true, saveTasksToStorage] at h
    obtain ⟨i, hi, hp, hlen⟩ :=
      filter_getElem?_backward (fun t => t.id != taskId) s.tasks j t1 h
    refine ⟨i, ?_⟩
    have hid : ¬ t1.id = taskId := by simpa using hp
    simp [trackStep, hi, hid, hlen]
  · have hnd : ∀ taskId, st ≠ Step.deleteTask taskId true := fun taskId he => hd ⟨taskId, he⟩
    have hj : j < (step toLowerCase s st).tasks.length := (List.getElem?_eq_some_iff.mp h).1
    by_cases ha : ∃ inputValue deadline r, st = Step.addTask inputValue deadline r
    · obtain ⟨inputValue, deadline, r, rfl⟩ := ha
      by_cases hlt : j < s.tasks.length
      · left
        exact ⟨j, by simp [trackStep, hlt]⟩
      · right
        refine ⟨⟨_, _, _, rfl⟩, ?_⟩
        simp only [step] at h hj
        rcases addTask_cases inputValue deadline r s with
          ⟨_, hs⟩ | ⟨_, e, _, hs⟩ | ⟨_, u, hu, hs⟩
        · rw [hs] at hj
          exact absurd hj hlt
        · rw [hs] at hj
          exact absurd hj hlt
        · rw [hs] at h hj
          simp only [saveTasksToStorage] at h hj
          rw [List.getElem?_append_right (by omega)] at h
          simp at hj
          have hj0 : j - s.tasks.length = 0 := by omega
          rw [hj0] at h
          simp at h
          rw [← h]
          exact (createTask_ok _ _ _ _ _ _ hu).2.2.2.1
    · left
      have hna : ∀ inputValue deadline r, st ≠ Step.addTask inputValue deadline r :=
        fun a b c he => ha ⟨a, b, c, he⟩
      rw [step_length toLowerCase s st hnd hna] at hj
      exact ⟨j, by rw [trackStep_of_not_delete s st hnd]; simp [hj]⟩

theorem run_cons (toLowerCase : String → String) (s : State) (st : Step) (rest : List Step) :
    run toLowerCase s (st :: rest) = run toLowerCase (step toLowerCase s st) rest := rfl

theorem run_append (toLowerCase : String → String) (s : State) (a b : List Step) :
    run toLowerCase s (a ++ b) = run toLowerCase (run toLowerCase s a) b := by
  simp [run, List.foldl_append]

/-- A notified task stays notified along a run that does not reopen it. -/
theorem notified_persists (toLowerCase : String → String) (steps : List Step) :
    ∀ (s : State) (i j : Nat) (t : Task), s.tasks[i]? = some t → t.notified = true →
      trackRun toLowerCase s steps i = some j → NoReopen toLowerCase s steps i →
      ∃ t2, (run toLowerCase s steps).tasks[j]? = some t2 ∧ t2.notified = true := by
  induction steps with
  | nil =>
    intro s i j t ht hn htrack _
    simp only [trackRun] at htrack
    by_cases hlt : i < s.tasks.length
    · simp only [hlt, if_true, Option.some.injEq] at htrack
      subst htrack
      exact ⟨t, ht, hn⟩
    · simp [hlt] at htrack
  | cons st rest ih =>
    intro s i j t ht hn htrack hno
    rw [run_cons]
    simp only [trackRun] at htrack
    simp only [NoReopen] at hno
    cases hk : trackStep st s i with
    | none => simp [hk] at htrack
    | some k =>
      simp only [hk] at htrack hno
      obtain ⟨u, u1, hu, hu1, hrel⟩ := trackStep_spec toLowerCase s st i k hk
      have hut : u = t := by rw [ht] at hu; exact (Option.some.inj hu).symm
      subst hut
      have hre := hno.1 u u1 ht hu1
      have hn1 : u1.notified = true := by
        rcases hrel.2.1 hn with h1 | h1
        · exact h1
        · rw [hre] at h1; exact absurd h1 (by simp)
      exact ih (step toLowerCase s st) k j u1 hu1 hn1 htrack hno.2

theorem dueSoon_iff (now : Int) (t : Task) :
    dueSoon now t = true ↔
      t.completed = false ∧ t.notified = false ∧
        ∃ d, t.deadline = some d ∧ 0 < d - now ∧ d - now ≤ 15 * 60 * 1000 := by
  unfold dueSoon
  cases hd : t.deadline with
  | none => simp
  | some d => cases hc : t.completed <;> cases hn : t.notified <;> simp

theorem trackRun_snoc (toLowerCase : String → String) (a : List Step) (st : Step) :
    ∀ (s : State) (i k j : Nat), trackRun toLowerCase s a i = some k →
      trackStep st (run toLowerCase s a) k = some j →
      j < (step toLowerCase (run toLowerCase s a) st).tasks.length →
      trackRun toLowerCase s (a ++ [st]) i = some j := by
  induction a with
  | nil =>
    intro s i k j h1 h2 h3
    simp only [trackRun] at h1
    by_cases hlt : i < s.tasks.length
    · simp only [hlt, if_true, Option.some.injEq] at h1
      subst h1
      have h2a : trackStep st s i = some j := h2
      have h3a : j < (step toLowerCase s st).tasks.length := h3
      simp [trackRun, h2a, h3a]
    · simp [hlt] at h1
  | cons x a ih =>
    intro s i k j h1 h2 h3
    simp only [trackRun] at h1
    cases hm : trackStep x s i with
    | none => simp [hm] at h1
    | some m =>
      simp only [hm] at h1
      rw [run_cons] at h2 h3
      have := ih (step toLowerCase s x) m k j h1 h2 h3
      simp only [List.cons_append, trackRun, hm]
      exact this

/-- Every step other than `addTask` and a confirmed `deleteTask` keeps the list of ids. -/
theorem step_ids (toLowerCase : String → String) (s : State) (st : Step)
    (hnd : ∀ taskId, st ≠ Step.deleteTask taskId true)
    (hna : ∀ inputValue deadline r, st ≠ Step.addTask inputValue deadline r) :
    (step toLowerCase s st).tasks.map (fun t => t.id) = s.tasks.map (fun t => t.id) := by
  apply List.ext_getElem?
  intro n
  rw [List.getElem?_map, List.getElem?_map]
  cases hn : s.tasks[n]? with
  | none =>
    have hlen : s.tasks.length ≤ n := List.getElem?_eq_none_iff.mp hn
    rw [← step_length toLowerCase s st hnd hna] at hlen
    rw [List.getElem?_eq_none_iff.mpr hlen]
  | some t =>
    obtain ⟨t1, h1, hrel⟩ := step_pointwise toLowerCase s st hnd n t hn
    rw [h1]
    simp [hrel.1]

theorem floor_hours_eq (n : Int) :
    ⌊((n : Int) : ℚ) / (1000 * 60 * 60)⌋ = Int.fdiv n 3600000 := by
  rw [Int.fdiv_eq_ediv n (by norm_num)]
  have h := Rat.floor_intCast_div_natCast n 3600000
  have e : ((1000 : ℚ) * 60 * 60) = ((3600000 : ℕ) : ℚ) := by norm_num
  rw [e, h]
  norm_num

theorem overdue_label_ne_due (a b : String) : "Overdue: " ++ a ≠ "Due" ++ b := by
  intro h
  have := congrArg String.data h
  simp at this

/-- The deadline label of a task with deadline `d`, with both clock readings equal to `now`,
by cases. -/
theorem createTaskElement_label_cases (fmtDate fmtTime : Int → String) (now : Int)
    (task : Task) (d : Int) (hd : task.deadline = some d) :
    (createTaskElement fmtDate fmtTime now now task).deadlineDisplay =
      if task.completed = false ∧ d < now then "Overdue: " ++ fmtDate d ++ " " ++ fmtTime d
      else if hoursUntil d now < 24 then "Due today: " ++ fmtTime d
      else if hoursUntil d now < 48 then "Due tomorrow: " ++ fmtTime d
      else "Due: " ++ fmtDate d ++ " " ++ fmtTime d := by
  unfold createTaskElement hoursUntil
  simp only [hd, floor_hours_eq]
  cases hc : task.completed <;> by_cases hlt : d < now <;> simp [hlt]

theorem checkDeadlines_notifications (now : Int) (s : State) :
    (checkDeadlines Permission.granted now s).notifications =
      s.notifications ++ (s.tasks.filter (dueSoon now)).map reminder := by
  obtain ⟨_, h2⟩ := checkLoop_eq now s.tasks [] [] []
  simp only [checkDeadlines, ne_eq, not_true_eq_false, if_false]
  rw [h2]
  simp

theorem checkDeadlines_editTaskId (permission : Permission) (now : Int) (s : State) :
    (checkDeadlines permission now s).editTaskId = s.editTaskId := by
  unfold checkDeadlines
  split <;> rfl

theorem fin_val_three : (((3 : Fin 1000) : Nat) : Int) = 3 := rfl
theorem fin_val_four : (((4 : Fin 1000) : Nat) : Int) = 4 := rfl

theorem reachable_run (toLowerCase : String → String) (steps : List Step) :
    ∀ s : State, Reachable toLowerCase s → Reachable toLowerCase (run toLowerCase s steps) := by
  induction steps with
  | nil => intro s h; exact h
  | cons st rest ih =>
    intro s h
    rw [run_cons]
    exact ih _ (Reachable.next s st h)

theorem staleRun_tasks : (run id fallbackSeed staleRun).tasks[5]? =
      some { rentTask with deadline := some 1201000, priority := "high", notified := true } := by
  simp [run, staleRun, step, fallbackSeed, fetchTasksFromAPI_fallback,
      saveTasksToStorage, createTask_empty, createTask_date, toISOString,
    State.initial, addTask, trim, isJsWhitespace, checkDeadlines_tasks, dueSoon, editTask,
    saveEditedTask, updateFirst, rentTask, checkDeadlines_editTaskId, fin_val_three, fin_val_four]

theorem trackRun_eq_of_no_delete (toLowerCase : String → String) (steps : List Step) :
    ∀ (s : State) (i j : Nat), (∀ st ∈ steps, ∀ taskId, st ≠ Step.deleteTask taskId true) →
      trackRun toLowerCase s steps i = some j → j = i := by
  induction steps with
  | nil =>
    intro s i j _ h
    simp only [trackRun] at h
    by_cases hlt : i < s.tasks.length
    · simp only [hlt, if_true, Option.some.injEq] at h
      exact h.symm
    · simp [hlt] at h
  | cons st rest ih =>
    intro s i j hnd h
    simp only [trackRun] at h
    rw [trackStep_of_not_delete s st (hnd st (List.mem_cons_self _ _))] at h
    by_cases hlt : i < s.tasks.length
    · simp only [hlt, if_true] at h
      exact ih _ i j (fun x hx => hnd x (List.mem_cons_of_mem _ hx)) h
    · simp [hlt] at h

theorem staleRun_not_reminded : ¬ RemindedForCurrent id fallbackSeed staleRun 5 := by
  rintro ⟨pre, post, now, i, t, t2, d, hsteps, ht, hfire, htrack, hno, hd, ht2, hd2⟩
  have hpre : pre = [Step.addTask "Pay rent" (DateInput.date 601000) ⟨2000, 0, 2000⟩] ∧ now = 3000 ∧
      post = [Step.editTask 2000, Step.saveEditedTask "Pay rent" (DateInput.date 1201000) "high"] := by
    unfold staleRun at hsteps
    rcases pre with _ | ⟨a, _ | ⟨b, _ | ⟨c, _ | ⟨e, rest⟩⟩⟩⟩ <;> simp at hsteps
    · exact ⟨by rw [hsteps.1], hsteps.2.1.symm, hsteps.2.2.symm⟩
  obtain ⟨rfl, rfl, rfl⟩ := hpre
  have hi : i = 5 := by
    have := trackRun_eq_of_no_delete id _ _ i 5 (by
      intro st hst taskId
      simp only [List.mem_cons, List.mem_singleton, List.not_mem_nil, or_false] at hst
      rcases hst with rfl | rfl | rfl <;> simp) htrack
    exact this.symm
  subst hi
  have ht5 : (run id fallbackSeed
      [Step.addTask "Pay rent" (DateInput.date 601000) ⟨2000, 0, 2000⟩]).tasks[5]? = some rentTask := by
    simp [run, step, fallbackSeed, fetchTasksFromAPI_fallback,
      saveTasksToStorage, createTask_empty, createTask_date, toISOString,
      State.initial, addTask, trim, isJsWhitespace, rentTask]
  rw [ht5] at ht
  have htr : t = rentTask := (Option.some.inj ht).symm
  subst htr
  rw [staleRun_tasks] at ht2
  have ht2e := (Option.some.inj ht2).symm
  subst ht2e
  simp [rentTask, createTask] at hd hd2
  omega


/-- A step that reopens a task leaves it not notified. -/
theorem reopened_clears (toLowerCase : String → String) (s : State) (st : Step) (i j : Nat)
    (t t1 : Task) (htrack : trackStep st s i = some j) (ht : s.tasks[i]? = some t)
    (ht1 : (step toLowerCase s st).tasks[j]? = some t1) (hre : reopened st t t1 = true) :
    t1.notified = false := by
  have hlt : i < s.tasks.length := (List.getElem?_eq_some_iff.mp ht).1
  simp only [reopened, Bool.and_eq_true, Bool.not_eq_true'] at hre
  obtain ⟨⟨htog, hc⟩, hc1⟩ := hre
  cases st with
  | toggleTaskCompletion taskId =>
    have hj : j = i := by
      simp only [trackStep, hlt, if_true, Option.some.injEq] at htrack
      exact htrack.symm
    subst hj
    simp only [step, toggleTaskCompletion] at ht1
    cases hf : s.tasks.find? (fun t => t.id == taskId) with
    | none =>
      simp only [hf] at ht1
      rw [ht] at ht1
      have := Option.some.inj ht1
      subst this
      rw [hc] at hc1
      exact absurd hc1 (by simp)
    | some u =>
      simp only [hf, saveTasksToStorage] at ht1
      rcases updateFirst_getElem? (fun t => t.id == taskId)
        (fun task =>
            let completed := !task.completed
            { task with completed := completed,
                        notified := if !completed then false else task.notified })
        s.tasks j t ht with h1 | h1
      · rw [h1] at ht1
        have := Option.some.inj ht1
        subst this
        rw [hc] at hc1
        exact absurd hc1 (by simp)
      · rw [h1] at ht1
        have := Option.some.inj ht1
        subst this
        simp [hc]
  | toggleSelectAll now =>
    have hj : j = i := by
      simp only [trackStep, hlt, if_true, Option.some.injEq] at htrack
      exact htrack.symm
    subst hj
    simp only [step] at ht1
    rw [toggleSelectAll_tasks, List.getElem?_map, ht] at ht1
    simp only [Option.map_some', Option.some.injEq] at ht1
    subst ht1
    by_cases hv : t ∈ getFilteredTasks toLowerCase now s
    · cases hall : (getFilteredTasks toLowerCase now s).all (fun v => v.completed)
      · simp [hv, hall] at hc1
      · simp [hv, hall]
    · simp only [hv, if_false] at hc1
      rw [hc] at hc1
      exact absurd hc1 (by simp)
  | setFilter filter => simp [Step.isToggle] at htog
  | setSearch value => simp [Step.isToggle] at htog
  | addTask inputValue deadline r => simp [Step.isToggle] at htog
  | deleteTask taskId confirmed => simp [Step.isToggle] at htog
  | editTask taskId => simp [Step.isToggle] at htog
  | saveEditedTask descriptionValue deadline priorityValue => simp [Step.isToggle] at htog
  | checkDeadlines permission now => simp [Step.isToggle] at htog

/-- Appending a step that does not reopen the followed task keeps `NoReopen`. -/
theorem noReopen_snoc (toLowerCase : String → String) (a : List Step) (st : Step) :
    ∀ (s : State) (i k : Nat), NoReopen toLowerCase s a i →
      trackRun toLowerCase s a i = some k →
      (∀ j t t1, trackStep st (run toLowerCase s a) k = some j →
        (run toLowerCase s a).tasks[k]? = some t →
        (step toLowerCase (run toLowerCase s a) st).tasks[j]? = some t1 →
        reopened st t t1 = false) →
      NoReopen toLowerCase s (a ++ [st]) i := by
  induction a with
  | nil =>
    intro s i k _ htrack hst
    simp only [trackRun] at htrack
    by_cases hlt : i < s.tasks.length
    · simp only [hlt, if_true, Option.some.injEq] at htrack
      subst htrack
      simp only [List.nil_append, NoReopen]
      cases hj : trackStep st s i with
      | none => trivial
      | some j =>
        refine ⟨?_, trivial⟩
        intro t t1 ht ht1
        exact hst j t t1 hj ht ht1
    · simp [hlt] at htrack
  | cons x a ih =>
    intro s i k hno htrack hst
    simp only [trackRun] at htrack
    simp only [NoReopen] at hno
    simp only [List.cons_append, NoReopen]
    cases hm : trackStep x s i with
    | none => trivial
    | some m =>
      simp only [hm] at htrack hno ⊢
      refine ⟨hno.1, ?_⟩
      exact ih (step toLowerCase s x) m k hno.2 htrack hst

/-! ## Deadline notifier: one tick -/

/-- C1: with permission granted, one run of `checkDeadlines` fires a reminder for exactly the
tasks that are not completed, not yet notified and have a deadline more than 0 and at most
15 minutes after `now` (one reminder each, in list order); it sets `notified` on exactly those
tasks and leaves every other field, every other task and the view settings as they were.  In
particular a lone task due in 10 minutes, not completed and not notified, ends notified with
exactly one reminder fired for it. -/
theorem checkDeadlines_fires_exactly_due (s : State) (now : Int) :
    (checkDeadlines Permission.granted now s).notifications =
        s.notifications ++ (s.tasks.filter (dueSoon now)).map reminder ∧
    (checkDeadlines Permission.granted now s).tasks =
        s.tasks.map (fun t => if dueSoon now t then { t with notified := true } else t) ∧
    (checkDeadlines Permission.granted now s).currentFilter = s.currentFilter ∧
    (checkDeadlines Permission.granted now s).searchTerm = s.searchTerm ∧
    (checkDeadlines Permission.granted now s).editTaskId = s.editTaskId ∧
    (∀ t : Task, t.completed = false → t.notified = false →
      t.deadline = some (now + 10 * 60 * 1000) →
      (checkDeadlines Permission.granted now { s with tasks := [t] }).tasks =
          [{ t with notified := true }] ∧
      (checkDeadlines Permission.granted now { s with tasks := [t] }).notifications =
          s.notifications ++ [reminder t]) := by
  have key : ∀ s : State,
      (checkDeadlines Permission.granted now s).notifications =
          s.notifications ++ (s.tasks.filter (dueSoon now)).map reminder ∧
      (checkDeadlines Permission.granted now s).tasks =
          s.tasks.map (fun t => if dueSoon now t then { t with notified := true } else t) := by
    intro s
    obtain ⟨h1, h2⟩ := checkLoop_eq now s.tasks [] [] []
    simp only [checkDeadlines, ne_eq, not_true_eq_false, if_false]
    rw [h1, h2]
    simp
  refine ⟨(key s).1, (key s).2, ?_, ?_, ?_, ?_⟩
  · simp [checkDeadlines]
  · simp [checkDeadlines]
  · simp [checkDeadlines]
  · intro t hc hn hd
    have hdue : dueSoon now t = true := by
      simp [dueSoon, hc, hn, hd]
    obtain ⟨k1, k2⟩ := key { s with tasks := [t] }
    rw [k1, k2]
    simp [hdue]

/-- A concrete tick: at time 1000 a task due at 601000 (10 minutes later) is notified and one
reminder is fired for it. -/
theorem checkDeadlines_fires_exactly_due_witness :
    (checkDeadlines Permission.granted 1000
        { State.initial with tasks :=
            [{ id := 1, description := "pay rent", completed := false,
               deadline := some (1000 + 10 * 60 * 1000), source := "user",
               priority := "medium", notified := false, createdAt := 0 }] }).tasks =
      [{ id := 1, description := "pay rent", completed := false,
         deadline := some (1000 + 10 * 60 * 1000), source := "user",
         priority := "medium", notified := true, createdAt := 0 }] ∧
    (checkDeadlines Permission.granted 1000
        { State.initial with tasks :=
            [{ id := 1, description := "pay rent", completed := false,
               deadline := some (1000 + 10 * 60 * 1000), source := "user",
               priority := "medium", notified := false, createdAt := 0 }] }).notifications =
      [reminder { id := 1, description := "pay rent", completed := false,
                  deadline := some (1000 + 10 * 60 * 1000), source := "user",
                  priority := "medium", notified := false, createdAt := 0 }] :=
  (checkDeadlines_fires_exactly_due State.initial 1000).2.2.2.2.2
    { id := 1, description := "pay rent", completed := false,
      deadline := some (1000 + 10 * 60 * 1000), source := "user",
      priority := "medium", notified := false, createdAt := 0 } rfl rfl rfl

/-- C2: a reminder is not fired twice for the same task.  If the tick at `now1` (permission
granted) fires a reminder for the task at position `i`, and the task is followed through any
later steps (add, edit, delete of other tasks, toggles, further ticks, view changes) to position
`j` without being flipped from completed to incomplete by `toggleTaskCompletion` or
`toggleSelectAll`, then the task is still notified, so a tick at any time `now2` skips it: the
loop of `checkDeadlines` decides not to notify it. -/
theorem checkDeadlines_never_fires_twice (toLowerCase : String → String) (s : State)
    (now1 now2 : Int) (steps : List Step) (i j : Nat) (t : Task)
    (ht : s.tasks[i]? = some t) (hdue : shouldNotify now1 t = true)
    (htrack : trackRun toLowerCase s
      (Step.checkDeadlines Permission.granted now1 :: steps) i = some j)
    (hno : NoReopen toLowerCase (checkDeadlines Permission.granted now1 s) steps i) :
    ∃ t2, (run toLowerCase s
        (Step.checkDeadlines Permission.granted now1 :: steps)).tasks[j]? = some t2 ∧
      t2.notified = true ∧ shouldNotify now2 t2 = false := by
  have hlt : i < s.tasks.length := (List.getElem?_eq_some_iff.mp ht).1
  have htrack1 : trackRun toLowerCase (checkDeadlines Permission.granted now1 s) steps i =
      some j := by
    simpa [trackRun, trackStep, hlt, step] using htrack
  have hdue1 : dueSoon now1 t = true := by rw [← shouldNotify_eq_dueSoon]; exact hdue
  have ht1 : (checkDeadlines Permission.granted now1 s).tasks[i]? =
      some { t with notified := true } := by
    rw [checkDeadlines_tasks, List.getElem?_map, ht]
    simp [hdue1]
  obtain ⟨t2, h2, hn2⟩ := notified_persists toLowerCase steps
    (checkDeadlines Permission.granted now1 s) i j _ ht1 rfl htrack1 hno
  refine ⟨t2, ?_, hn2, ?_⟩
  · rw [run_cons]; exact h2
  · rw [shouldNotify_eq_dueSoon]
    simp [dueSoon, hn2]

/-- A concrete run: the sample task due at 601000 gets its reminder at time 1000; it is then
edited so that its deadline moves to 1201000; the tick at time 601000, for which the new
deadline is again within 15 minutes, does not fire a second reminder. -/
theorem checkDeadlines_never_fires_twice_witness :
    ∃ t2, (run id dueView
        [Step.checkDeadlines Permission.granted 1000, Step.editTask 7,
         Step.saveEditedTask "Pay rent" (DateInput.date 1201000) "high"]).tasks[0]? = some t2 ∧
      t2.notified = true ∧ shouldNotify 601000 t2 = false :=
  checkDeadlines_never_fires_twice id dueView 1000 601000
    [Step.editTask 7, Step.saveEditedTask "Pay rent" (DateInput.date 1201000) "high"] 0 0 taskD rfl
    (by rw [shouldNotify_eq_dueSoon]; simp [dueSoon, taskD])
    (by simp [trackRun, trackStep, step, dueView, State.initial, checkDeadlines_tasks,
          editTask, saveEditedTask, taskD, dueSoon, saveTasksToStorage, updateFirst,
          toISOString])
    (by simp [NoReopen, trackStep, step, dueView, State.initial, checkDeadlines_tasks,
          editTask, saveEditedTask, taskD, dueSoon, saveTasksToStorage, updateFirst, reopened,
          Step.isToggle, toISOString])

/-! ## Toggling one task -/

/-- C3: `toggleTaskCompletion(id)`.  When some task has that id, the list splits at the first
such task `t`, and the result is the same list with `t` replaced by `t` with `completed`
negated and, when the new value is false, `notified` false (when it is true, `notified`
kept); nothing else changes and the order is kept.  When no task has that id the state is
unchanged. -/
theorem toggleTaskCompletion_first_match (taskId : Int) (s : State) :
    ((∃ x ∈ s.tasks, x.id = taskId) →
      ∃ pre t post, s.tasks = pre ++ t :: post ∧ (∀ x ∈ pre, x.id ≠ taskId) ∧ t.id = taskId ∧
        (toggleTaskCompletion taskId s).tasks =
          pre ++ { t with completed := !t.completed,
                          notified := if (!t.completed) = false then false else t.notified }
            :: post) ∧
    ((∀ x ∈ s.tasks, x.id ≠ taskId) → toggleTaskCompletion taskId s = s) := by
  constructor
  · rintro ⟨x, hx, hid⟩
    obtain ⟨pre, t, post, hl, hpre, ht⟩ :=
      exists_first_split (fun t => t.id == taskId) s.tasks ⟨x, hx, by simp [hid]⟩
    refine ⟨pre, t, post, hl, ?_, by simpa using ht, ?_⟩
    · intro y hy
      simpa using hpre y hy
    · have hf := find?_append_cons (fun t => t.id == taskId) pre t post hpre ht
      unfold toggleTaskCompletion
      rw [hl, hf]
      simp only [saveTasksToStorage]
      rw [updateFirst_append_cons _ _ pre t post hpre ht]
      cases t.completed <;> simp
  · intro h
    have hf := find?_none_of_forall (fun t => t.id == taskId) s.tasks (by
      intro x hx
      simpa using h x hx)
    unfold toggleTaskCompletion
    rw [hf]

/-- A concrete toggle: in a two-task list, toggling id 2 completes the second task and keeps
its `notified` flag; the first task is untouched. -/
theorem toggleTaskCompletion_first_match_witness :
    ∃ pre t post,
      [({ id := 1, description := "a", completed := false, deadline := none, source := "user",
          priority := "medium", notified := false, createdAt := 0 } : Task),
       { id := 2, description := "b", completed := false, deadline := some 5, source := "user",
         priority := "medium", notified := true, createdAt := 0 }] = pre ++ t :: post ∧
      (∀ x ∈ pre, x.id ≠ 2) ∧ t.id = 2 ∧
      (toggleTaskCompletion 2
        { State.initial with tasks :=
          [{ id := 1, description := "a", completed := false, deadline := none,
             source := "user", priority := "medium", notified := false, createdAt := 0 },
           { id := 2, description := "b", completed := false, deadline := some 5,
             source := "user", priority := "medium", notified := true, createdAt := 0 }] }).tasks =
        pre ++ { t with completed := !t.completed,
                        notified := if (!t.completed) = false then false else t.notified }
          :: post :=
  (toggleTaskCompletion_first_match 2
    { State.initial with tasks :=
      [{ id := 1, description := "a", completed := false, deadline := none,
         source := "user", priority := "medium", notified := false, createdAt := 0 },
       { id := 2, description := "b", completed := false, deadline := some 5,
         source := "user", priority := "medium", notified := true, createdAt := 0 }] }).1
    ⟨{ id := 2, description := "b", completed := false, deadline := some 5,
       source := "user", priority := "medium", notified := true, createdAt := 0 },
     by simp, rfl⟩

/-- C4: toggling the same present id twice restores `completed` and every field other than
`notified`, and leaves `notified` false whatever it was: the list ends as the original with
the first task of that id replaced by itself with `notified := false`.  Hence a task that
started notified does not get its flag back, and the list differs from the original. -/
theorem toggleTaskCompletion_twice (taskId : Int) (s : State) (pre post : List Task) (t : Task)
    (hsplit : s.tasks = pre ++ t :: post) (hpre : ∀ x ∈ pre, x.id ≠ taskId)
    (ht : t.id = taskId) :
    (toggleTaskCompletion taskId (toggleTaskCompletion taskId s)).tasks =
        pre ++ { t with notified := false } :: post ∧
    (t.notified = true →
      (toggleTaskCompletion taskId (toggleTaskCompletion taskId s)).tasks ≠ s.tasks) := by
  have key : (toggleTaskCompletion taskId (toggleTaskCompletion taskId s)).tasks =
      pre ++ { t with notified := false } :: post := by
    have h1 := toggleTaskCompletion_tasks_of_split taskId s pre post t hsplit hpre ht
    have h2 := toggleTaskCompletion_tasks_of_split taskId (toggleTaskCompletion taskId s)
      pre post _ h1 hpre ht
    rw [h2]
    cases t.completed <;> simp
  refine ⟨key, ?_⟩
  intro hn heq
  rw [key, hsplit] at heq
  have := List.append_cancel_left heq
  simp only [List.cons.injEq] at this
  have h2 := congrArg Task.notified this.1
  simp [hn] at h2

/-- A concrete double toggle: the open, notified sample task is open again after two toggles
but no longer notified, so the list is not the original one. -/
theorem toggleTaskCompletion_twice_witness :
    (toggleTaskCompletion 2 (toggleTaskCompletion 2 singleView)).tasks =
        [] ++ { taskB with notified := false } :: [] ∧
    (taskB.notified = true →
      (toggleTaskCompletion 2 (toggleTaskCompletion 2 singleView)).tasks ≠ singleView.tasks) :=
  toggleTaskCompletion_twice 2 singleView [] [] taskB rfl (by simp) rfl

/-! ## View filter -/

/-- C7: for every task list, filter mode, search term and time `now`, `getFilteredTasks` is the
task list filtered, in its original order, by the conjunction of the search test (when the term
is non-empty, the lower-cased description contains it) and the mode test: `all` keeps every
task, `active` the not completed ones, `completed` the completed ones, `overdue` those not
completed with a deadline strictly before `now`.  The result is a sublist of the task list.
Example for `overdue`: of A (completed, deadline past), B (not completed, deadline past) and
C (not completed, no deadline) only B is kept. -/
theorem getFilteredTasks_exact (toLowerCase : String → String) (now : Int) (s : State) :
    (s.currentFilter = "all" →
      getFilteredTasks toLowerCase now s =
        s.tasks.filter (fun t => matchesSearch toLowerCase s.searchTerm t)) ∧
    (s.currentFilter = "active" →
      getFilteredTasks toLowerCase now s =
        s.tasks.filter (fun t => matchesSearch toLowerCase s.searchTerm t && !t.completed)) ∧
    (s.currentFilter = "completed" →
      getFilteredTasks toLowerCase now s =
        s.tasks.filter (fun t => matchesSearch toLowerCase s.searchTerm t && t.completed)) ∧
    (s.currentFilter = "overdue" →
      getFilteredTasks toLowerCase now s =
        s.tasks.filter (fun t => matchesSearch toLowerCase s.searchTerm t &&
          (!t.completed && t.deadline.any (fun d => decide (d < now))))) ∧
    List.Sublist (getFilteredTasks toLowerCase now s) s.tasks ∧
    getFilteredTasks toLowerCase 86401000 overdueView = [taskB] := by
  have h := getFilteredTasks_eq_filter toLowerCase now s
  have hvis : isVisible toLowerCase now s.currentFilter s.searchTerm =
      fun t => matchesSearch toLowerCase s.searchTerm t &&
        (if s.currentFilter = "active" then !t.completed
         else if s.currentFilter = "completed" then t.completed
         else if s.currentFilter = "overdue" then isOverdue now t
         else true) := by
    funext t; rfl
  rw [hvis] at h
  refine ⟨?_, ?_, ?_, ?_, ?_, ?_⟩
  · intro hm
    rw [h, hm]
    simp
  · intro hm
    rw [h, hm]
    simp
  · intro hm
    rw [h, hm]
    simp
  · intro hm
    rw [h, hm]
    have hov : ∀ t : Task, isOverdue now t =
        (!t.completed && t.deadline.any (fun d => decide (d < now))) := by
      intro t
      unfold isOverdue
      cases t.deadline <;> simp
    simp [hov]
  · rw [h]
    exact List.filter_sublist _
  · rw [getFilteredTasks_eq_filter]
    simp [overdueView, State.initial, taskA, taskB, taskC, matchesSearch, isOverdue, isVisible]

/-- A concrete use of the filter: the overdue view of the three sample tasks, evaluated one
day after their deadline, is the filter of the list by the overdue test. -/
theorem getFilteredTasks_exact_witness :
    getFilteredTasks id 86401000 overdueView =
      overdueView.tasks.filter (fun t => matchesSearch id overdueView.searchTerm t &&
        (!t.completed && t.deadline.any (fun d => decide (d < 86401000)))) :=
  (getFilteredTasks_exact id 86401000 overdueView).2.2.2.1 rfl

/-! ## Bulk toggle -/

/-- C5: `toggleSelectAll` acts on exactly the visible subset (the result of
`getFilteredTasks` under the current filter mode and search term) and its direction depends
only on that subset.  The list keeps its length and order; position by position, a visible
task becomes incomplete with `notified` false when every visible task is completed, and
completed with `notified` unchanged otherwise; a task outside the visible subset is
unchanged, whatever its completion state. -/
theorem toggleSelectAll_acts_on_visible (toLowerCase : String → String) (now : Int)
    (s : State) :
    (toggleSelectAll toLowerCase now s).tasks.length = s.tasks.length ∧
    ∀ (i : Nat) (t : Task), s.tasks[i]? = some t →
      (t ∈ getFilteredTasks toLowerCase now s →
        (∀ v ∈ getFilteredTasks toLowerCase now s, v.completed = true) →
        (toggleSelectAll toLowerCase now s).tasks[i]? =
          some { t with completed := false, notified := false }) ∧
      (t ∈ getFilteredTasks toLowerCase now s →
        ¬ (∀ v ∈ getFilteredTasks toLowerCase now s, v.completed = true) →
        (toggleSelectAll toLowerCase now s).tasks[i]? = some { t with completed := true }) ∧
      (t ∉ getFilteredTasks toLowerCase now s →
        (toggleSelectAll toLowerCase now s).tasks[i]? = some t) := by
  rw [toggleSelectAll_tasks]
  refine ⟨by simp, ?_⟩
  intro i t hi
  rw [List.getElem?_map, hi]
  refine ⟨?_, ?_, ?_⟩
  · intro hv hall
    have : (getFilteredTasks toLowerCase now s).all (fun v => v.completed) = true := by
      rw [List.all_eq_true]; exact hall
    simp [hv, this]
  · intro hv hall
    have : (getFilteredTasks toLowerCase now s).all (fun v => v.completed) = false := by
      rw [← Bool.not_eq_true, List.all_eq_true]; exact hall
    simp [hv, this]
  · intro hv
    simp [hv]

/-- A concrete bulk toggle: under the overdue filter, evaluated after the deadline, only task B
is visible; it gets completed and keeps its `notified` flag. -/
theorem toggleSelectAll_acts_on_visible_witness :
    (toggleSelectAll id 86401000 overdueView).tasks[1]? = some { taskB with completed := true } :=
  ((toggleSelectAll_acts_on_visible id 86401000 overdueView).2 1 taskB rfl).2.1
    (by rw [mem_getFilteredTasks]; simp [overdueView, State.initial, taskA, taskB, taskC,
          matchesSearch, isOverdue, isVisible])
    (by
      intro h
      have := h taskB (by rw [mem_getFilteredTasks]; simp [overdueView, State.initial, taskA,
          taskB, taskC, matchesSearch, isOverdue, isVisible])
      simp [taskB] at this)

/-- C6, as stated, fails under the active filter: one open task is visible and gets completed
by the first `toggleSelectAll`; it is then no longer visible, so the second call leaves it
completed instead of making it incomplete. -/
theorem selectAllTwice_fails_under_active : ¬ SelectAllTwice id 0 0 activeView := by
  intro h
  have hvis : getFilteredTasks id 0 activeView = [taskC] := by
    rw [getFilteredTasks_eq_filter]
    simp [activeView, State.initial, taskC, matchesSearch, isVisible]
  have h2 : (toggleSelectAll id 0 (toggleSelectAll id 0 activeView)).tasks =
      [{ taskC with completed := true }] := by
    have e1 : (toggleSelectAll id 0 activeView).tasks = [{ taskC with completed := true }] := by
      rw [toggleSelectAll_tasks, hvis]
      simp [activeView, State.initial, taskC]
    have hvis1 : getFilteredTasks id 0 (toggleSelectAll id 0 activeView) = [] := by
      rw [getFilteredTasks_eq_filter, e1]
      simp [toggleSelectAll, saveTasksToStorage, activeView, State.initial, taskC,
        matchesSearch, isVisible]
    rw [toggleSelectAll_tasks, hvis1, e1]
    simp
  obtain ⟨_, t2, ht2, hc, _⟩ :=
    h (by rw [hvis]; simp) (by rw [hvis]; simp [taskC]) 0 taskC rfl (by rw [hvis]; simp)
  rw [h2] at ht2
  simp at ht2
  rw [← ht2] at hc
  simp at hc

/-- C6, amended: under every filter mode other than `active` and `overdue` (so under `all`),
for every search term, when the visible subset is non-empty and not entirely completed, one
`toggleSelectAll` completes every task of that subset and a second one makes every task of
that same subset incomplete with `notified` false. -/
theorem toggleSelectAll_twice_stable_mode (toLowerCase : String → String) (now1 now2 : Int)
    (s : State) (hactive : s.currentFilter ≠ "active") (hoverdue : s.currentFilter ≠ "overdue") :
    SelectAllTwice toLowerCase now1 now2 s := by
  intro _ hnot i t hi hv
  have hall0 : (getFilteredTasks toLowerCase now1 s).all (fun v => v.completed) = false := by
    rw [← Bool.not_eq_true, List.all_eq_true]; exact hnot
  -- the list after the first call
  have e1 : (toggleSelectAll toLowerCase now1 s).tasks =
      s.tasks.map (fun t =>
        if t ∈ getFilteredTasks toLowerCase now1 s then { t with completed := true } else t) := by
    rw [toggleSelectAll_tasks]
    simp [hall0]
  have hmode : (toggleSelectAll toLowerCase now1 s).currentFilter = s.currentFilter := rfl
  have hterm : (toggleSelectAll toLowerCase now1 s).searchTerm = s.searchTerm := rfl
  have hi1 : (toggleSelectAll toLowerCase now1 s).tasks[i]? =
      some { t with completed := true } := by
    rw [e1, List.getElem?_map, hi]
    simp [hv]
  -- a completed copy of a visible task is visible after the first call
  have hvisT := (mem_getFilteredTasks toLowerCase now1 s t).mp hv
  have hv1 : ({ t with completed := true } : Task) ∈
      getFilteredTasks toLowerCase now2 (toggleSelectAll toLowerCase now1 s) := by
    rw [mem_getFilteredTasks, hmode, hterm]
    refine ⟨List.getElem?_mem hi1, ?_⟩
    have h := hvisT.2
    rw [isVisible_of_stable_mode _ _ _ _ _ hactive hoverdue] at h ⊢
    simp only [Bool.and_eq_true] at h ⊢
    refine ⟨?_, by simp⟩
    have := h.1
    simpa [matchesSearch] using this
  -- every task visible after the first call is completed
  have hall1 : (getFilteredTasks toLowerCase now2 (toggleSelectAll toLowerCase now1 s)).all
      (fun v => v.completed) = true := by
    rw [List.all_eq_true]
    intro v hvmem
    rw [mem_getFilteredTasks, hmode, hterm, e1] at hvmem
    obtain ⟨hm, hvisv⟩ := hvmem
    obtain ⟨u, hu, rfl⟩ := List.mem_map.mp hm
    by_cases huv : u ∈ getFilteredTasks toLowerCase now1 s
    · simp [huv]
    · exfalso
      apply huv
      rw [mem_getFilteredTasks]
      refine ⟨hu, ?_⟩
      simp only [huv, if_false] at hvisv
      rw [isVisible_of_stable_mode _ _ _ _ _ hactive hoverdue] at hvisv ⊢
      exact hvisv
  refine ⟨⟨_, hi1, rfl⟩, ⟨{ t with completed := false, notified := false }, ?_, rfl, rfl⟩⟩
  rw [toggleSelectAll_tasks, List.getElem?_map, hi1]
  simp [hv1, hall1]

/-- The scenario of C6: with no filter and no search term, a visible subset of three tasks of
which two are completed; the third task is completed by the first `toggleSelectAll`, and the
second call makes it incomplete with `notified` false. -/
theorem toggleSelectAll_twice_stable_mode_witness :
    (∃ t1, (toggleSelectAll id 0 allView).tasks[2]? = some t1 ∧ t1.completed = true) ∧
    (∃ t2, (toggleSelectAll id 0 (toggleSelectAll id 0 allView)).tasks[2]? = some t2 ∧
        t2.completed = false ∧ t2.notified = false) :=
  toggleSelectAll_twice_stable_mode id 0 0 allView (by decide) (by decide)
    (by rw [getFilteredTasks_eq_filter]
        simp [allView, State.initial, taskA, taskB, taskC, matchesSearch, isVisible])
    (by
      intro h
      have := h taskC (by
        rw [mem_getFilteredTasks]
        simp [allView, State.initial, taskA, taskB, taskC, matchesSearch, isVisible])
      simp [taskC] at this)
    2 taskC rfl
    (by rw [mem_getFilteredTasks]
        simp [allView, State.initial, taskA, taskB, taskC, matchesSearch, isVisible])

/-! ## Adding a task -/

/-- C8, as stated, fails when the deadline box holds a value that `new Date` does not parse:
with the description `Far future`, non-empty after trimming, `createTask` throws before
`tasks.push`, so no task is appended. -/
theorem addTask_appends_nothing_on_invalid_deadline :
    ¬ AddTaskClaim "Far future" DateInput.invalid ⟨5, 7, 5⟩ singleView := by
  intro h
  obtain ⟨t, ht, _⟩ := h.2 (by decide)
  have hlen := congrArg List.length ht
  rcases addTask_cases "Far future" DateInput.invalid ⟨5, 7, 5⟩ singleView with
    ⟨he, _⟩ | ⟨_, e, _, hs⟩ | ⟨_, u, hu, _⟩
  · exact absurd he (by decide)
  · rw [hs] at hlen
    simp at hlen
  · rw [createTask_invalid] at hu
    exact absurd hu (by simp)

/-- C8, amended: `addTask`.  When the input is empty after trimming, the task list is
unchanged and nothing is written to storage.  When it is non-empty after trimming and the
deadline box is empty or holds a value that parses to a date, exactly one task is appended at
the end of the list, with the trimmed description, `completed` and `notified` false, source
`user`, priority `medium` (and the deadline entered), the existing tasks staying as they were,
and the new list is written to storage.  When it is non-empty after trimming and the deadline
box holds a value that does not parse, `createTask` throws before the push: the task list and
the storage are unchanged. -/
theorem addTask_validates_and_appends (inputValue : String) (deadline : DateInput)
    (r : Readings) (s : State) :
    (trim inputValue = "" →
      (addTask inputValue deadline r s).tasks = s.tasks ∧
      (addTask inputValue deadline r s).storage = s.storage) ∧
    (trim inputValue ≠ "" → deadline ≠ DateInput.invalid →
      ∃ t : Task, (addTask inputValue deadline r s).tasks = s.tasks ++ [t] ∧
        t.description = trim inputValue ∧ t.completed = false ∧ t.notified = false ∧
        t.source = "user" ∧ t.priority = "medium" ∧
        toISOString deadline = Except.ok t.deadline ∧
        t.id = r.dateNow + (r.random.val : Int) ∧
        (addTask inputValue deadline r s).storage = s.storage ++ [s.tasks ++ [t]]) ∧
    (trim inputValue ≠ "" → deadline = DateInput.invalid →
      (addTask inputValue deadline r s).tasks = s.tasks ∧
      (addTask inputValue deadline r s).storage = s.storage ∧
      (addTask inputValue deadline r s).errors =
        s.errors ++ ["RangeError: Invalid time value"]) := by
  refine ⟨?_, ?_, ?_⟩
  · intro h
    simp [addTask, h]
  · intro h hd
    rcases addTask_cases inputValue deadline r s with
      ⟨he, _⟩ | ⟨_, e, hc, _⟩ | ⟨_, t, ht, hs⟩
    · exact absurd he h
    · cases deadline with
      | empty => rw [createTask_empty] at hc; exact absurd hc (by simp)
      | date ms => rw [createTask_date] at hc; exact absurd hc (by simp)
      | invalid => exact absurd rfl hd
    · obtain ⟨hid, hdesc, hcomp, hnot, hsrc, hprio, _, hiso⟩ := createTask_ok _ _ _ _ _ _ ht
      refine ⟨t, ?_, hdesc, hcomp, hnot, hsrc, hprio, hiso, hid, ?_⟩
      · rw [hs]; rfl
      · rw [hs]; rfl
  · intro h hd
    subst hd
    rcases addTask_cases inputValue DateInput.invalid r s with
      ⟨he, _⟩ | ⟨_, e, hc, hs⟩ | ⟨_, t, ht, _⟩
    · exact absurd he h
    · rw [createTask_invalid] at hc
      injection hc with hc
      subst hc
      rw [hs]
      exact ⟨rfl, rfl, rfl⟩
    · rw [createTask_invalid] at ht
      exact absurd ht (by simp)

/-- A concrete accepted input: a description with blanks around it and a deadline that parses
appends one task, with the trimmed description, to the sample state. -/
theorem addTask_validates_and_appends_witness :
    ∃ t : Task,
      (addTask "  Buy milk " (DateInput.date 5000) ⟨5, 7, 5⟩ singleView).tasks =
        singleView.tasks ++ [t] ∧
      t.description = trim "  Buy milk " ∧ t.completed = false ∧ t.notified = false ∧
      t.source = "user" ∧ t.priority = "medium" ∧
      toISOString (DateInput.date 5000) = Except.ok t.deadline ∧
      t.id = (5 : Int) + (((7 : Fin 1000).val : Nat) : Int) ∧
      (addTask "  Buy milk " (DateInput.date 5000) ⟨5, 7, 5⟩ singleView).storage =
        singleView.storage ++ [singleView.tasks ++ [t]] :=
  (addTask_validates_and_appends "  Buy milk " (DateInput.date 5000) ⟨5, 7, 5⟩ singleView).2.1
    (by decide) (by decide)

/-! ## Where a set `notified` flag comes from -/

/-- C10: starting from a state in which no task is notified, after any sequence of steps (view
changes, add, edit, delete, `toggleTaskCompletion`, `toggleSelectAll`, `checkDeadlines`), every
task with `notified = true` was, at some earlier `checkDeadlines` step run with permission
granted, not completed with a deadline more than 0 and at most 15 minutes after that
step's time.  Moreover no step other than `checkDeadlines` turns a `notified` flag from false
to true: a task kept by such a step that was not notified is not notified afterwards, and a
task that is new after such a step is not notified. -/
theorem notified_implies_observed_due (toLowerCase : String → String) (s0 : State)
    (h0 : ∀ t ∈ s0.tasks, t.notified = false) :
    (∀ (steps : List Step) (j : Nat) (t : Task),
      (run toLowerCase s0 steps).tasks[j]? = some t → t.notified = true →
      ObservedDue toLowerCase s0 steps j) ∧
    (∀ (s : State) (st : Step), (∀ permission now, st ≠ Step.checkDeadlines permission now) →
      (∀ (i j : Nat) (t t1 : Task), trackStep st s i = some j → s.tasks[i]? = some t →
        (step toLowerCase s st).tasks[j]? = some t1 → t.notified = false →
        t1.notified = false) ∧
      (∀ (j : Nat) (t1 : Task), (step toLowerCase s st).tasks[j]? = some t1 →
        (∀ i, trackStep st s i ≠ some j) → t1.notified = false)) := by
  constructor
  · intro steps
    induction steps using List.reverseRecOn with
    | nil =>
      intro j t ht hn
      have hmem : t ∈ s0.tasks := List.getElem?_mem ht
      rw [h0 t hmem] at hn
      exact absurd hn (by simp)
    | append_singleton init st ih =>
      intro j t ht hn
      have hrun : run toLowerCase s0 (init ++ [st]) =
          step toLowerCase (run toLowerCase s0 init) st := by
        rw [run_append]; rfl
      rw [hrun] at ht
      have hj : j < (step toLowerCase (run toLowerCase s0 init) st).tasks.length :=
        (List.getElem?_eq_some_iff.mp ht).1
      rcases step_origin toLowerCase _ st j t ht with ⟨i, hi⟩ | ⟨_, hnew⟩
      · obtain ⟨u, u1, hu, hu1, hrel⟩ := trackStep_spec toLowerCase _ st i j hi
        have hut : u1 = t := by rw [ht] at hu1; exact (Option.some.inj hu1).symm
        subst hut
        rcases hrel.2.2 hn with hprev | ⟨now, hst, hdue⟩
        · obtain ⟨pre, post, now, i0, t0, d, hsteps, ht0, hc, hd, hlo, hhi, htrack⟩ :=
            ih i u hu hprev
          refine ⟨pre, post ++ [st], now, i0, t0, d, by simp [hsteps], ht0, hc, hd, hlo, hhi, ?_⟩
          have hrun2 : run toLowerCase (run toLowerCase s0 pre)
              (Step.checkDeadlines Permission.granted now :: post) =
              run toLowerCase s0 init := by
            rw [← run_append, ← hsteps]
          have := trackRun_snoc toLowerCase
            (Step.checkDeadlines Permission.granted now :: post) st
            (run toLowerCase s0 pre) i0 i j htrack (by rw [hrun2]; exact hi)
            (by rw [hrun2]; exact hj)
          simpa using this
        · obtain ⟨hc, _, d, hd, hlo, hhi⟩ := (dueSoon_iff now u).mp hdue
          refine ⟨init, [], now, i, u, d, by rw [hst], hu, hc, hd, hlo, hhi, ?_⟩
          rw [← hst]
          simp [trackRun, hi, hj]
      · rw [hnew] at hn
        exact absurd hn (by simp)
  · intro s st hnc
    constructor
    · intro i j t t1 hi ht ht1 hn
      obtain ⟨u, u1, hu, hu1, hrel⟩ := trackStep_spec toLowerCase s st i j hi
      have e1 : u = t := by rw [ht] at hu; exact (Option.some.inj hu).symm
      have e2 : u1 = t1 := by rw [ht1] at hu1; exact (Option.some.inj hu1).symm
      subst e1 e2
      by_contra hne
      have hn1 : u1.notified = true := by simpa using hne
      rcases hrel.2.2 hn1 with h1 | ⟨now, hst, _⟩
      · rw [hn] at h1; exact absurd h1 (by simp)
      · exact hnc _ _ hst
    · intro j t1 ht1 hnone
      rcases step_origin toLowerCase s st j t1 ht1 with ⟨i, hi⟩ | ⟨_, hnew⟩
      · exact absurd hi (hnone i)
      · exact hnew

/-- A concrete run: from the state holding the due sample task, not notified, one tick at time
1000 leaves the task notified, and that tick is the step that saw it due. -/
theorem notified_implies_observed_due_witness :
    ObservedDue id dueView [Step.checkDeadlines Permission.granted 1000] 0 :=
  (notified_implies_observed_due id dueView (by simp [dueView, State.initial, taskD])).1
    [Step.checkDeadlines Permission.granted 1000] 0 { taskD with notified := true }
    (by simp [run, step, checkDeadlines_tasks, dueView, State.initial, taskD, dueSoon])
    rfl

/-! ## Task ids -/

/-- C9, as stated, fails: the fallback seed loaded at clock reading 1000 with random draws
0 to 4 has the ids 1000 to 1004; an `addTask` one millisecond later with random draw 0 assigns
the id 1001, which the second seed task already has.  The resulting state is reachable and
holds two tasks with the same id. -/
theorem ids_collide_after_addTask :
    Reachable id collidingState ∧ ¬ UniqueIds collidingState ∧
    ∃ t ∈ fallbackSeed.tasks, ∃ u,
      createTask "Buy milk" DateInput.empty "user" "medium" laterReadings = Except.ok u ∧
      u.id = t.id := by
  refine ⟨?_, ?_, ?_⟩
  · exact Reachable.next _ _ (Reachable.seed _ _ _ _ _ _ _)
  · simp [UniqueIds, collidingState, fallbackSeed, laterReadings, step, addTask,
      fetchTasksFromAPI_fallback, saveTasksToStorage, createTask_empty, State.initial, trim,
      isJsWhitespace]
  · refine ⟨{ id := 1001, description := "Try adding your own tasks", completed := false,
              deadline := none, source := "system", priority := "medium",
              notified := false, createdAt := 1000 }, ?_, _, createTask_empty _ _ _ _, ?_⟩
    · simp [fallbackSeed, fetchTasksFromAPI_fallback, saveTasksToStorage]
    · simp [laterReadings]

/-- C9, amended: id uniqueness is not guaranteed, it is preserved under a freshness condition.
If the ids of a state are pairwise distinct, they still are after any step, provided that an
`addTask` step draws an id `dateNow + random` that no task of the list has.  The id drawn by
`createTask` lies between `dateNow` and `dateNow + 999`, so the condition holds whenever every
id of the list is below the clock reading.  The API seed has pairwise distinct ids exactly
when its first 15 records have. -/
theorem uniqueIds_preserved_when_fresh (toLowerCase : String → String) (s : State) (st : Step)
    (hunique : UniqueIds s)
    (hfresh : ∀ inputValue deadline r, st = Step.addTask inputValue deadline r →
      ∀ t ∈ s.tasks, t.id ≠ r.dateNow + (r.random.val : Int)) :
    UniqueIds (step toLowerCase s st) ∧
    (∀ (description : String) (deadline : DateInput) (source priority : String)
        (r : Readings) (u : Task),
      createTask description deadline source priority r = Except.ok u →
      r.dateNow ≤ u.id ∧ u.id ≤ r.dateNow + 999 ∧
      ((∀ t ∈ s.tasks, t.id < r.dateNow) → ∀ t ∈ s.tasks, u.id ≠ t.id)) ∧
    (∀ (apiTasks : List ApiTodo) (created : Nat → Int) (r1 r2 r3 r4 r5 : Readings),
      UniqueIds (fetchTasksFromAPI (some apiTasks) created r1 r2 r3 r4 r5 State.initial) ↔
        ((apiTasks.take 15).map (fun a => a.id)).Nodup) := by
  refine ⟨?_, ?_, ?_⟩
  · unfold UniqueIds at hunique ⊢
    by_cases hd : ∃ taskId, st = Step.deleteTask taskId true
    · obtain ⟨taskId, rfl⟩ := hd
      simp only [step, deleteTask, if_true, saveTasksToStorage]
      exact List.Nodup.sublist (List.Sublist.map _ (List.filter_sublist _)) hunique
    · have hnd : ∀ taskId, st ≠ Step.deleteTask taskId true := fun taskId he => hd ⟨taskId, he⟩
      by_cases ha : ∃ inputValue deadline r, st = Step.addTask inputValue deadline r
      · obtain ⟨inputValue, deadline, r, rfl⟩ := ha
        have hf := hfresh inputValue deadline r rfl
        simp only [step]
        rcases addTask_cases inputValue deadline r s with
          ⟨_, hs⟩ | ⟨_, e, _, hs⟩ | ⟨_, u, hu, hs⟩
        · rw [hs]; exact hunique
        · rw [hs]; exact hunique
        · rw [hs]
          simp only [saveTasksToStorage, List.map_append, List.map_cons, List.map_nil]
          rw [List.nodup_append]
          refine ⟨hunique, by simp, ?_⟩
          intro a ha1 ha2
          simp only [List.mem_singleton] at ha2
          obtain ⟨t, ht, hta⟩ := List.mem_map.mp ha1
          apply hf t ht
          rw [hta, ha2]
          exact (createTask_ok _ _ _ _ _ _ hu).1
      · have hna : ∀ inputValue deadline r, st ≠ Step.addTask inputValue deadline r :=
          fun a b c he => ha ⟨a, b, c, he⟩
        rw [step_ids toLowerCase s st hnd hna]
        exact hunique
  · intro description deadline source priority r u hu
    have hid := (createTask_ok _ _ _ _ _ _ hu).1
    have hr : (r.random.val : Int) < 1000 := by exact_mod_cast r.random.isLt
    have hr0 : (0 : Int) ≤ (r.random.val : Int) := Int.ofNat_nonneg _
    refine ⟨by omega, by omega, ?_⟩
    intro hlt t ht
    have := hlt t ht
    omega
  · intro apiTasks created r1 r2 r3 r4 r5
    unfold UniqueIds
    have : (fetchTasksFromAPI (some apiTasks) created r1 r2 r3 r4 r5 State.initial).tasks.map
        (fun t => t.id) = (apiTasks.take 15).map (fun a => a.id) := by
      simp only [fetchTasksFromAPI, saveTasksToStorage, List.map_map]
      apply List.ext_getElem?
      intro n
      simp only [List.getElem?_map, List.getElem?_enum]
      cases (List.take 15 apiTasks)[n]? <;> rfl
    rw [this]

/-- A concrete preserving step: the fallback seed has pairwise distinct ids, and an `addTask`
at clock reading 2000, above every id of the seed, keeps them distinct. -/
theorem uniqueIds_preserved_when_fresh_witness :
    UniqueIds (step id fallbackSeed (Step.addTask "Buy milk" DateInput.empty ⟨2000, 0, 2000⟩)) :=
  (uniqueIds_preserved_when_fresh id fallbackSeed
    (Step.addTask "Buy milk" DateInput.empty ⟨2000, 0, 2000⟩)
    (by
      simp only [UniqueIds, fallbackSeed, fetchTasksFromAPI_fallback, saveTasksToStorage,
        List.map_cons, List.map_nil]
      decide)
    (by
      intro inputValue deadline r h t ht
      simp only [Step.addTask.injEq] at h
      obtain ⟨_, _, hr⟩ := h
      subst hr
      simp [fallbackSeed, fetchTasksFromAPI_fallback, saveTasksToStorage] at ht
      rcases ht with rfl | rfl | rfl | rfl | rfl <;> decide)).1

/-! ## Deadline label -/

/-- C12: the deadline label computed in `createTaskElement`, with integer millisecond times and
one clock reading `now`.  A task without a deadline gets no label.  For a task with deadline
`d`, the label is the `Overdue` one exactly when the task is not completed and `d < now`;
otherwise, with `h` the floor of `(d - now) / 3600000`, it is `Due today` when `h < 24`,
`Due tomorrow` when `24 ≤ h < 48` and `Due:` followed by date and time when `48 ≤ h`.  Hence a
deadline exactly 24 hours away is labelled `Due tomorrow` and one exactly 48 hours away
`Due:` with date and time. -/
theorem createTaskElement_deadline_label (fmtDate fmtTime : Int → String) (now : Int)
    (task : Task) :
    (task.deadline = none →
      (createTaskElement fmtDate fmtTime now now task).deadlineDisplay = "") ∧
    (∀ d, task.deadline = some d →
      ((createTaskElement fmtDate fmtTime now now task).deadlineDisplay =
          "Overdue: " ++ fmtDate d ++ " " ++ fmtTime d ↔
        (task.completed = false ∧ d < now)) ∧
      (¬ (task.completed = false ∧ d < now) →
        (hoursUntil d now < 24 →
          (createTaskElement fmtDate fmtTime now now task).deadlineDisplay =
            "Due today: " ++ fmtTime d) ∧
        (24 ≤ hoursUntil d now → hoursUntil d now < 48 →
          (createTaskElement fmtDate fmtTime now now task).deadlineDisplay =
            "Due tomorrow: " ++ fmtTime d) ∧
        (48 ≤ hoursUntil d now →
          (createTaskElement fmtDate fmtTime now now task).deadlineDisplay =
            "Due: " ++ fmtDate d ++ " " ++ fmtTime d)) ∧
      (d = now + 24 * 3600000 →
        (createTaskElement fmtDate fmtTime now now task).deadlineDisplay =
          "Due tomorrow: " ++ fmtTime d) ∧
      (d = now + 48 * 3600000 →
        (createTaskElement fmtDate fmtTime now now task).deadlineDisplay =
          "Due: " ++ fmtDate d ++ " " ++ fmtTime d)) := by
  constructor
  · intro hnone
    simp [createTaskElement, hnone]
  · intro d hd
    have hcases := createTaskElement_label_cases fmtDate fmtTime now task d hd
    have hbuckets : ¬ (task.completed = false ∧ d < now) →
        (hoursUntil d now < 24 →
          (createTaskElement fmtDate fmtTime now now task).deadlineDisplay =
            "Due today: " ++ fmtTime d) ∧
        (24 ≤ hoursUntil d now → hoursUntil d now < 48 →
          (createTaskElement fmtDate fmtTime now now task).deadlineDisplay =
            "Due tomorrow: " ++ fmtTime d) ∧
        (48 ≤ hoursUntil d now →
          (createTaskElement fmtDate fmtTime now now task).deadlineDisplay =
            "Due: " ++ fmtDate d ++ " " ++ fmtTime d) := by
      intro hno
      rw [hcases, if_neg hno]
      refine ⟨?_, ?_, ?_⟩
      · intro h
        rw [if_pos h]
      · intro h1 h2
        rw [if_neg (by omega), if_pos h2]
      · intro h
        rw [if_neg (by omega), if_neg (by omega)]
    refine ⟨?_, hbuckets, ?_, ?_⟩
    · constructor
      · intro hlabel
        by_contra hno
        rw [hcases, if_neg hno] at hlabel
        have e1 : "Due today: " ++ fmtTime d = "Due" ++ (" today: " ++ fmtTime d) := by
          rw [← String.append_assoc]; rfl
        have e2 : "Due tomorrow: " ++ fmtTime d = "Due" ++ (" tomorrow: " ++ fmtTime d) := by
          rw [← String.append_assoc]; rfl
        have e3 : "Due: " ++ fmtDate d ++ " " ++ fmtTime d =
            "Due" ++ (": " ++ fmtDate d ++ " " ++ fmtTime d) := by
          simp only [← String.append_assoc]; rfl
        have e0 : "Overdue: " ++ fmtDate d ++ " " ++ fmtTime d =
            "Overdue: " ++ (fmtDate d ++ " " ++ fmtTime d) := by
          simp only [String.append_assoc]
        rw [e0] at hlabel
        split_ifs at hlabel
        · rw [e1] at hlabel; exact overdue_label_ne_due _ _ hlabel.symm
        · rw [e2] at hlabel; exact overdue_label_ne_due _ _ hlabel.symm
        · rw [e3] at hlabel; exact overdue_label_ne_due _ _ hlabel.symm
      · intro hov
        rw [hcases, if_pos hov]
    · intro h24
      have hno : ¬ (task.completed = false ∧ d < now) := by
        intro h; omega
      have hh : hoursUntil d now = 24 := by
        unfold hoursUntil
        rw [h24, Int.fdiv_eq_ediv _ (by norm_num)]
        omega
      exact (hbuckets hno).2.1 (by omega) (by omega)
    · intro h48
      have hno : ¬ (task.completed = false ∧ d < now) := by
        intro h; omega
      have hh : hoursUntil d now = 48 := by
        unfold hoursUntil
        rw [h48, Int.fdiv_eq_ediv _ (by norm_num)]
        omega
      exact (hbuckets hno).2.2 (by omega)

/-- A concrete label: for the open sample task due at 601000, seen exactly 24 hours earlier,
the label is the `Due tomorrow` one. -/
theorem createTaskElement_deadline_label_witness :
    (createTaskElement (fun _ => "1/1/1970") (fun _ => "12:10 AM") (-85799000) (-85799000)
        taskD).deadlineDisplay = "Due tomorrow: " ++ "12:10 AM" :=
  ((createTaskElement_deadline_label (fun _ => "1/1/1970") (fun _ => "12:10 AM") (-85799000)
    taskD).2 601000 rfl).2.2.1 (by decide)

/-! ## The `notified` flag after an edit -/

/-- C11, as stated, fails at a reachable state, because `saveEditedTask` overwrites the deadline
and keeps `notified`.  From the fallback seed (no task notified), a task due at 601000 is added,
the tick at time 3000 fires its reminder, and the task is edited to be due at 1201000.  The
task then has `notified = true` with the new deadline, although the only reminder fired was
for the old one: no reminder was fired for its current state.  At time 601000 the new
deadline is 10 minutes away, so the task would be due if the flag were clear; the tick at that
time fires nothing. -/
theorem saveEditedTask_keeps_notified_on_new_deadline :
    Reachable id (run id fallbackSeed staleRun) ∧
    (∀ t ∈ fallbackSeed.tasks, t.notified = false) ∧
    (run id fallbackSeed staleRun).tasks[5]? =
      some { rentTask with deadline := some 1201000, priority := "high", notified := true } ∧
    (run id fallbackSeed staleRun).notifications = [reminder rentTask] ∧
    ¬ RemindedForCurrent id fallbackSeed staleRun 5 ∧
    dueSoon 601000 { rentTask with deadline := some 1201000, priority := "high" } = true ∧
    (checkDeadlines Permission.granted 601000 (run id fallbackSeed staleRun)).notifications =
      [reminder rentTask] := by
  refine ⟨?_, ?_, staleRun_tasks, ?_, staleRun_not_reminded, ?_, ?_⟩
  · exact reachable_run id staleRun fallbackSeed (Reachable.seed _ _ _ _ _ _ _)
  · intro t ht
    simp [fallbackSeed, fetchTasksFromAPI_fallback, saveTasksToStorage] at ht
    rcases ht with rfl | rfl | rfl | rfl | rfl <;> rfl
  · simp [run, staleRun, step, fallbackSeed, fetchTasksFromAPI_fallback,
      saveTasksToStorage, createTask_empty, createTask_date, toISOString,
      State.initial, addTask, trim, isJsWhitespace, checkDeadlines_tasks, dueSoon, editTask,
      saveEditedTask, updateFirst, rentTask, checkDeadlines_editTaskId, fin_val_three,
      fin_val_four, checkDeadlines_notifications]
  · simp [dueSoon, rentTask]
  · simp [run, staleRun, step, fallbackSeed, fetchTasksFromAPI_fallback,
      saveTasksToStorage, createTask_empty, createTask_date, toISOString,
      State.initial, addTask, trim, isJsWhitespace, checkDeadlines_tasks, dueSoon, editTask,
      saveEditedTask, updateFirst, rentTask, checkDeadlines_editTaskId, fin_val_three,
      fin_val_four, checkDeadlines_notifications]

/-- C11, amended: starting from a state in which no task is notified, after any sequence of
steps, a task has `notified = true` only if a reminder was already fired for it since it last
became incomplete: a `checkDeadlines` step run with permission granted fired for it, and no
toggle has flipped it from completed to incomplete since.  The deadline the task has now need
not be the one the reminder was fired for: `saveEditedTask` keeps the `notified` flag of every
task, whatever it writes to the deadline.  A task whose flag is set is skipped by the loop of
`checkDeadlines` at every time, so a task whose deadline is moved by an edit after its reminder
receives no reminder for the new deadline while the flag is set. -/
theorem notified_implies_reminded_since_reopen (toLowerCase : String → String) (s0 : State)
    (h0 : ∀ t ∈ s0.tasks, t.notified = false) :
    (∀ (steps : List Step) (j : Nat) (t : Task),
      (run toLowerCase s0 steps).tasks[j]? = some t → t.notified = true →
      RemindedSinceReopen toLowerCase s0 steps j) ∧
    (∀ (s : State) (descriptionValue : String) (deadline : DateInput) (priorityValue : String)
        (i : Nat) (t : Task), s.tasks[i]? = some t →
      ∃ t1, (saveEditedTask descriptionValue deadline priorityValue s).tasks[i]? = some t1 ∧
        t1.notified = t.notified) ∧
    (∀ (now : Int) (t : Task), t.notified = true → shouldNotify now t = false) := by
  refine ⟨?_, ?_, ?_⟩
  · intro steps
    induction steps using List.reverseRecOn with
    | nil =>
      intro j t ht hn
      have hmem : t ∈ s0.tasks := List.getElem?_mem ht
      rw [h0 t hmem] at hn
      exact absurd hn (by simp)
    | append_singleton init st ih =>
      intro j t ht hn
      have hrun : run toLowerCase s0 (init ++ [st]) =
          step toLowerCase (run toLowerCase s0 init) st := by
        rw [run_append]; rfl
      rw [hrun] at ht
      have hj : j < (step toLowerCase (run toLowerCase s0 init) st).tasks.length :=
        (List.getElem?_eq_some_iff.mp ht).1
      rcases step_origin toLowerCase _ st j t ht with ⟨i, hi⟩ | ⟨_, hnew⟩
      · obtain ⟨u, u1, hu, hu1, hrel⟩ := trackStep_spec toLowerCase _ st i j hi
        have hut : u1 = t := by rw [ht] at hu1; exact (Option.some.inj hu1).symm
        subst hut
        rcases hrel.2.2 hn with hprev | ⟨now, hst, hdue⟩
        · obtain ⟨pre, post, now, i0, t0, hsteps, ht0, hfire, htrack, hno⟩ := ih i u hu hprev
          have hrun2 : run toLowerCase (run toLowerCase s0 pre)
              (Step.checkDeadlines Permission.granted now :: post) =
              run toLowerCase s0 init := by
            rw [← run_append, ← hsteps]
          have hrun3 : run toLowerCase
              (run toLowerCase s0 (pre ++ [Step.checkDeadlines Permission.granted now])) post =
              run toLowerCase s0 init := by
            rw [← run_append, List.append_assoc, List.singleton_append, ← hsteps]
          have hlt0 : i0 < (run toLowerCase s0 pre).tasks.length :=
            (List.getElem?_eq_some_iff.mp ht0).1
          have htrack1 : trackRun toLowerCase
              (run toLowerCase s0 (pre ++ [Step.checkDeadlines Permission.granted now]))
              post i0 = some i := by
            have hstep : run toLowerCase s0
                (pre ++ [Step.checkDeadlines Permission.granted now]) =
                step toLowerCase (run toLowerCase s0 pre)
                  (Step.checkDeadlines Permission.granted now) := by
              rw [run_append]; rfl
            rw [hstep]
            simpa [trackRun, trackStep, hlt0] using htrack
          refine ⟨pre, post ++ [st], now, i0, t0, by simp [hsteps], ht0, hfire, ?_, ?_⟩
          · have := trackRun_snoc toLowerCase
              (Step.checkDeadlines Permission.granted now :: post) st
              (run toLowerCase s0 pre) i0 i j htrack (by rw [hrun2]; exact hi)
              (by rw [hrun2]; exact hj)
            simpa using this
          · apply noReopen_snoc toLowerCase post st _ i0 i hno htrack1
            intro j2 a a1 hj2 ha ha1
            rw [hrun3] at hj2 ha ha1
            have hjj : j2 = j := by
              rw [hi] at hj2
              exact (Option.some.inj hj2).symm
            subst hjj
            have hau : a = u := by rw [hu] at ha; exact (Option.some.inj ha).symm
            have hat : a1 = u1 := by rw [ht] at ha1; exact (Option.some.inj ha1).symm
            subst hau hat
            cases hre : reopened st a a1 with
            | false => rfl
            | true =>
              have := reopened_clears toLowerCase _ st i j2 a a1 hi hu ht hre
              rw [this] at hn
              exact absurd hn (by simp)
        · have hfire : shouldNotify now u = true := by
            rw [shouldNotify_eq_dueSoon]; exact hdue
          refine ⟨init, [], now, i, u, by rw [hst], hu, hfire, ?_, ?_⟩
          · rw [← hst]
            simp [trackRun, hi, hj]
          · simp [NoReopen]
      · rw [hnew] at hn
        exact absurd hn (by simp)
  · intro s descriptionValue deadline priorityValue i t ht
    obtain ⟨t1, h1, hrel⟩ := step_pointwise id s
      (Step.saveEditedTask descriptionValue deadline priorityValue) (by intro taskId; simp)
      i t ht
    refine ⟨t1, h1, ?_⟩
    cases hn : t.notified with
    | true =>
      rcases hrel.2.1 hn with h | h
      · exact h
      · simp [reopened, Step.isToggle] at h
    | false =>
      cases hn1 : t1.notified with
      | false => rfl
      | true =>
        rcases hrel.2.2 hn1 with h | ⟨now, h, _⟩
        · rw [hn] at h; exact absurd h (by simp)
        · simp at h
  · intro now t hn
    rw [shouldNotify_eq_dueSoon]
    simp [dueSoon, hn]

/-- A concrete run: in the run from the fallback seed in which the added task gets its reminder
and is then edited to a later deadline, the task, at position 5, is notified, and its reminder
was fired since it last became incomplete. -/
theorem notified_implies_reminded_since_reopen_witness :
    RemindedSinceReopen id fallbackSeed staleRun 5 :=
  (notified_implies_reminded_since_reopen id fallbackSeed (by
      intro t ht
      simp [fallbackSeed, fetchTasksFromAPI_fallback, saveTasksToStorage] at ht
      rcases ht with rfl | rfl | rfl | rfl | rfl <;> rfl)).1
    staleRun 5 _ staleRun_tasks rfl

end PlannerPro
